import Mathlib

/-!
A verification development for the `iran_news_app.py` news-aggregation
pipeline.  Python values are shallowly embedded:

* a Python `str` is modelled as a `List Char` (`PyStr`), its sequence of
  Unicode code points (digits and case folding are modelled for the ASCII
  range, which covers every string the pipeline manipulates);
* a Python `datetime` is modelled as `PyDateTime`: microseconds since
  0001-01-01 00:00:00 together with an optional UTC offset (`tz = none`
  models a naive datetime, `tz = some o` an aware one with `utcoffset`
  of `o` microseconds);
* Python exceptions relevant to the pipeline (`OverflowError` from
  datetime arithmetic leaving the year range 1..9999, `TypeError` from
  comparing naive and aware datetimes) are modelled with `Except PyErr`;
* network effects are parameters: each function that performs an HTTP
  call takes the response it would observe as an explicit argument.
-/

namespace IranNews

/-- A Python `str`, as its list of code points. -/
abbrev PyStr := List Char

/-- Shorthand turning a Lean string literal into the `PyStr` model. -/
def str (s : String) : PyStr := s.data

/-- ASCII lowercase of one character, modelling `str.lower` on the ASCII
range (the only range exercised by usernames and API names here). -/
def lowerChar (c : Char) : Char :=
  if 'A' ≤ c ∧ c ≤ 'Z' then Char.ofNat (c.toNat + 32) else c

/-- Model of Python `str.lower()` (ASCII range). -/
def pyLower (s : PyStr) : PyStr := s.map lowerChar

/-- Model of Python `str.startswith(p)`. -/
def pyStartsWith (s p : PyStr) : Bool := p.isPrefixOf s

/-- Does `pre` begin the list?  Executable helper for substring search. -/
def beginsWith : PyStr → PyStr → Bool
  | [], _ => true
  | _ :: _, [] => false
  | p :: ps, c :: cs => p = c && beginsWith ps cs

/-- Model of Python `haystack.find(needle) != -1`: `needle` occurs
contiguously inside `haystack`. -/
def pyContains (haystack needle : PyStr) : Bool :=
  match haystack with
  | [] => needle.isEmpty
  | _ :: rest => beginsWith needle haystack || pyContains rest needle

/-- Exceptions the pipeline's datetime handling can raise: `OverflowError`
(datetime arithmetic leaving years 1..9999) and `TypeError` (comparing a
naive with an aware datetime). -/
inductive PyErr where
  | overflowError
  | typeError
deriving DecidableEq

/-- A Python `datetime`: microseconds since 0001-01-01 00:00:00 (naive
field value), plus `utcoffset` in microseconds for aware datetimes. -/
structure PyDateTime where
  usec : Nat
  tz : Option Int
deriving DecidableEq

/-- `datetime.max` as microseconds since 0001-01-01: 9999-12-31
23:59:59.999999. -/
def maxUsec : Nat := 315537897599999999

/-- `timedelta(hours=3, minutes=30)` in microseconds — the fixed "Tehran
time" offset the code adds after parsing. -/
def tehranDeltaUsec : Nat := 12600000000

/-- Gregorian leap-year test (as used by Python's `datetime`). -/
def isLeap (y : Nat) : Bool := y % 4 = 0 && (y % 100 ≠ 0 || y % 400 = 0)

/-- Days in a month of the proleptic Gregorian calendar. -/
def daysInMonth (y m : Nat) : Nat :=
  if m = 2 then (if isLeap y then 29 else 28)
  else if m = 4 ∨ m = 6 ∨ m = 9 ∨ m = 11 then 30
  else 31

/-- Day number of a valid Gregorian date, counted from 0001-01-01 = 0
(the civil-from-days algorithm, specialised to positive years). -/
def daysFromCivil (y m d : Nat) : Nat :=
  let yy := if m ≤ 2 then y - 1 else y
  let era := yy / 400
  let yoe := yy % 400
  let mp := if m ≤ 2 then m + 9 else m - 3
  let doy := (153 * mp + 2) / 5 + (d - 1)
  let doe := yoe * 365 + yoe / 4 - yoe / 100 + doy
  era * 146097 + doe - 306

/-- Naive microsecond value of a datetime given by calendar fields. -/
def usecOfFields (y m d h mi s us : Nat) : Nat :=
  (daysFromCivil y m d * 86400 + h * 3600 + mi * 60 + s) * 1000000 + us

/-! ### `datetime.strptime` on the eight formats used by
`parse_to_tehran_time`.

Each component parser mirrors the regular expression CPython's
`_strptime` builds for the corresponding directive (`%Y` is exactly four
digits; `%m`, `%d`, `%H`, `%M`, `%S` accept one or two digits within the
directive's numeric range; `%f` is one to six digits; a literal space
matches one or more whitespace characters; literal letters match
case-insensitively; `%z` follows the published offset grammar).  A
format parser succeeds only if it consumes the whole input and the
resulting fields form a valid datetime — CPython signals both a failed
regex match and an invalid date (e.g. February 30th, or second 60) with
`ValueError`, which `parse_to_tehran_time` treats identically (try the
next format). -/

/-- Is `c` an ASCII decimal digit? -/
def isDigitC (c : Char) : Bool := '0' ≤ c && c ≤ '9'

/-- Numeric value of an ASCII digit. -/
def digitVal (c : Char) : Nat := c.toNat - 48

/-- Whitespace characters matched by a literal space in a format string. -/
def isWsC (c : Char) : Bool :=
  c = ' ' || c = '\t' || c = '\n' || c = '\r' || c = Char.ofNat 11 || c = Char.ofNat 12

/-- Exactly four digits (`%Y`). -/
def parse4 : PyStr → Option (Nat × PyStr)
  | a :: b :: c :: d :: rest =>
    if isDigitC a && isDigitC b && isDigitC c && isDigitC d then
      some (((digitVal a * 10 + digitVal b) * 10 + digitVal c) * 10 + digitVal d, rest)
    else none
  | _ => none

/-- One or two digits: a two-digit read is accepted when its value lies
in `[lo2, hi2]`, otherwise a single digit with value at least `lo1` is
read (mirroring the alternation order of the `%m`/`%d`/`%H`/`%M`/`%S`
regexes). -/
def parseNum2 (lo2 hi2 lo1 : Nat) : PyStr → Option (Nat × PyStr)
  | [] => none
  | [c] =>
    if isDigitC c && lo1 ≤ digitVal c then some (digitVal c, []) else none
  | c1 :: c2 :: rest =>
    if isDigitC c1 && isDigitC c2 &&
        lo2 ≤ (digitVal c1 * 10 + digitVal c2) && (digitVal c1 * 10 + digitVal c2) ≤ hi2 then
      some (digitVal c1 * 10 + digitVal c2, rest)
    else if isDigitC c1 && lo1 ≤ digitVal c1 then some (digitVal c1, c2 :: rest)
    else none

/-- A literal character, matched exactly. -/
def parseLit (c : Char) : PyStr → Option PyStr
  | x :: rest => if x = c then some rest else none
  | [] => none

/-- A literal letter, matched case-insensitively (CPython compiles the
format regex with `IGNORECASE`). -/
def parseLitCI (c : Char) : PyStr → Option PyStr
  | x :: rest => if lowerChar x = lowerChar c then some rest else none
  | [] => none

/-- One or more whitespace characters (a literal space in the format). -/
def parseWs : PyStr → Option PyStr
  | c :: rest =>
    if isWsC c then
      match rest with
      | c' :: _ => if isWsC c' then parseWs rest else some rest
      | [] => some []
    else none
  | [] => none

/-- Up to `k` further digits, accumulating onto `acc` and counting in
`cnt`; used greedily by `%f`. -/
def parseDigitsUpTo : Nat → Nat → Nat → PyStr → (Nat × Nat × PyStr)
  | 0, acc, cnt, s => (acc, cnt, s)
  | k + 1, acc, cnt, s =>
    match s with
    | c :: rest =>
      if isDigitC c then parseDigitsUpTo k (acc * 10 + digitVal c) (cnt + 1) rest
      else (acc, cnt, s)
    | [] => (acc, cnt, [])

/-- `%f`: one to six digits, right-padded to microseconds. -/
def parseFrac (s : PyStr) : Option (Nat × PyStr) :=
  match parseDigitsUpTo 6 0 0 s with
  | (_, 0, _) => none
  | (acc, cnt, rest) => some (acc * 10 ^ (6 - cnt), rest)

/-- Two digits whose first is `0`-`5` (the minute and second parts of a
`%z` offset). -/
def parseZ2 : PyStr → Option (Nat × PyStr)
  | c1 :: c2 :: rest =>
    if isDigitC c1 && digitVal c1 ≤ 5 && isDigitC c2 then
      some (digitVal c1 * 10 + digitVal c2, rest)
    else none
  | _ => none

/-- The optional fractional-seconds tail of a `%z` offset: `.` followed
by one to six digits, then end of input. -/
def parseZFracEnd : PyStr → Option Nat
  | [] => some 0
  | '.' :: rest =>
    match parseFrac rest with
    | some (us, []) => some us
    | _ => none
  | _ => none

/-- The seconds-and-fraction tail of a `%z` offset.  `col` records
whether the hours/minutes were colon-separated: CPython raises
`ValueError` ("Inconsistent use of :") when the separators disagree, and
a raise during any format's processing just moves on to the next format,
so both a mismatched tail and a malformed tail yield `none` here. -/
def parseZTail (col : Bool) : PyStr → Option Nat
  | [] => some 0
  | s =>
    if col then
      match s with
      | ':' :: rest =>
        match parseZ2 rest with
        | some (sec, rest') =>
          match parseZFracEnd rest' with
          | some us => some (sec * 1000000 + us)
          | none => none
        | none => none
      | _ => none
    else
      match parseZ2 s with
      | some (sec, rest') =>
        match parseZFracEnd rest' with
        | some us => some (sec * 1000000 + us)
        | none => none
      | none => none

/-- `%z` at the end of the input: `Z` (exact case, meaning UTC) or a
signed `±HH[:]MM[[:]SS[.ffffff]]` offset, valid only when strictly less
than 24 hours (otherwise `timezone(timedelta(...))` raises and the
format fails).  Returns the `utcoffset` in microseconds. -/
def parseZoneEnd : PyStr → Option Int
  | ['Z'] => some 0
  | sign :: rest =>
    if sign = '+' ∨ sign = '-' then
      match rest with
      | h1 :: h2 :: rest' =>
        if isDigitC h1 && isDigitC h2 then
          let hrs := digitVal h1 * 10 + digitVal h2
          let afterH : PyStr := rest'
          let colStep : Option (Bool × PyStr) :=
            match afterH with
            | ':' :: r => some (true, r)
            | r => some (false, r)
          match colStep with
          | some (col, r1) =>
            match parseZ2 r1 with
            | some (mins, r2) =>
              match parseZTail col r2 with
              | some secUs =>
                let total : Nat := (hrs * 3600 + mins * 60) * 1000000 + secUs
                if total < 86400000000 then
                  some (if sign = '-' then -(total : Int) else (total : Int))
                else none
              | none => none
            | none => none
          | none => none
        else none
      | _ => none
    else none
  | [] => none

/-- Calendar fields produced by one format match, before validation. -/
structure DTFields where
  y : Nat
  m : Nat
  d : Nat
  h : Nat
  mi : Nat
  s : Nat
  us : Nat
  tz : Option Int
deriving DecidableEq

/-- Validation performed by the `datetime` constructor after a regex
match: the year must be at least 1 (four digits cap it at 9999), the day
must exist in the month, and seconds above 59 (the regex admits leap
seconds 60 and 61) are rejected.  A failure is a `ValueError`, i.e. the
format simply does not parse. -/
def mkDT (f : DTFields) : Option PyDateTime :=
  if 1 ≤ f.y && 1 ≤ f.d && f.d ≤ daysInMonth f.y f.m && f.s ≤ 59 then
    some ⟨usecOfFields f.y f.m f.d f.h f.mi f.s f.us, f.tz⟩
  else none

/-- The shared `%Y-%m-%d` date part. -/
def parseDatePart (s : PyStr) : Option ((Nat × Nat × Nat) × PyStr) := do
  let (y, s) ← parse4 s
  let s ← parseLit '-' s
  let (m, s) ← parseNum2 1 12 1 s
  let s ← parseLit '-' s
  let (d, s) ← parseNum2 1 31 1 s
  pure ((y, m, d), s)

/-- The shared `%H:%M:%S` time part. -/
def parseTimePart (s : PyStr) : Option ((Nat × Nat × Nat) × PyStr) := do
  let (h, s) ← parseNum2 0 23 0 s
  let s ← parseLit ':' s
  let (mi, s) ← parseNum2 0 59 0 s
  let s ← parseLit ':' s
  let (sec, s) ← parseNum2 0 61 0 s
  pure ((h, mi, sec), s)

/-- Format `%Y-%m-%dT%H:%M:%SZ`. -/
def fmt1 (s : PyStr) : Option PyDateTime := do
  let ((y, m, d), s) ← parseDatePart s
  let s ← parseLitCI 'T' s
  let ((h, mi, sec), s) ← parseTimePart s
  let s ← parseLitCI 'Z' s
  if s = [] then mkDT ⟨y, m, d, h, mi, sec, 0, none⟩ else none

/-- Format `%Y-%m-%d %H:%M:%S`. -/
def fmt2 (s : PyStr) : Option PyDateTime := do
  let ((y, m, d), s) ← parseDatePart s
  let s ← parseWs s
  let ((h, mi, sec), s) ← parseTimePart s
  if s = [] then mkDT ⟨y, m, d, h, mi, sec, 0, none⟩ else none

/-- Format `%Y-%m-%dT%H:%M:%S`. -/
def fmt3 (s : PyStr) : Option PyDateTime := do
  let ((y, m, d), s) ← parseDatePart s
  let s ← parseLitCI 'T' s
  let ((h, mi, sec), s) ← parseTimePart s
  if s = [] then mkDT ⟨y, m, d, h, mi, sec, 0, none⟩ else none

/-- Format `%Y-%m-%dT%H:%M:%S.%fZ`. -/
def fmt4 (s : PyStr) : Option PyDateTime := do
  let ((y, m, d), s) ← parseDatePart s
  let s ← parseLitCI 'T' s
  let ((h, mi, sec), s) ← parseTimePart s
  let s ← parseLit '.' s
  let (us, s) ← parseFrac s
  let s ← parseLitCI 'Z' s
  if s = [] then mkDT ⟨y, m, d, h, mi, sec, us, none⟩ else none

/-- Format `%Y-%m-%d %H:%M:%S.%f`. -/
def fmt5 (s : PyStr) : Option PyDateTime := do
  let ((y, m, d), s) ← parseDatePart s
  let s ← parseWs s
  let ((h, mi, sec), s) ← parseTimePart s
  let s ← parseLit '.' s
  let (us, s) ← parseFrac s
  if s = [] then mkDT ⟨y, m, d, h, mi, sec, us, none⟩ else none

/-- Format `%Y-%m-%dT%H:%M:%S%z`. -/
def fmt6 (s : PyStr) : Option PyDateTime := do
  let ((y, m, d), s) ← parseDatePart s
  let s ← parseLitCI 'T' s
  let ((h, mi, sec), s) ← parseTimePart s
  let off ← parseZoneEnd s
  mkDT ⟨y, m, d, h, mi, sec, 0, some off⟩

/-- Format `%Y-%m-%dT%H:%M:%S.%f%z`. -/
def fmt7 (s : PyStr) : Option PyDateTime := do
  let ((y, m, d), s) ← parseDatePart s
  let s ← parseLitCI 'T' s
  let ((h, mi, sec), s) ← parseTimePart s
  let s ← parseLit '.' s
  let (us, s) ← parseFrac s
  let off ← parseZoneEnd s
  mkDT ⟨y, m, d, h, mi, sec, us, some off⟩

/-- Format `%Y-%m-%d`. -/
def fmt8 (s : PyStr) : Option PyDateTime := do
  let ((y, m, d), s) ← parseDatePart s
  if s = [] then mkDT ⟨y, m, d, 0, 0, 0, 0, none⟩ else none

/-- The format list of `parse_to_tehran_time`, tried in order; the first
match wins. -/
def strptimeAny (s : PyStr) : Option PyDateTime :=
  (fmt1 s) <|> (fmt2 s) <|> (fmt3 s) <|> (fmt4 s) <|>
  (fmt5 s) <|> (fmt6 s) <|> (fmt7 s) <|> (fmt8 s)

/-- `parse_to_tehran_time`: an empty string or a string matching no
format yields `None`; otherwise the parsed datetime plus
`timedelta(hours=3, minutes=30)`.  The addition is the one step that can
raise: only `ValueError` is caught inside the loop, so when the shifted
value passes `datetime.max` the `OverflowError` escapes the function. -/
def parse_to_tehran_time (s : PyStr) : Except PyErr (Option PyDateTime) :=
  if s = [] then .ok none
  else
    match strptimeAny s with
    | none => .ok none
    | some dt =>
      if dt.usec + tehranDeltaUsec > maxUsec then .error .overflowError
      else .ok (some ⟨dt.usec + tehranDeltaUsec, dt.tz⟩)

/-! ### Items and the aggregation pipeline -/

/-- One pipeline record (the union of the news-item and financial-report
dict shapes; the `type` field distinguishes them, exactly as in the
Python dicts).  Unused fields default to the empty string / zero. -/
structure Item where
  title : PyStr := []
  url : PyStr := []
  source : PyStr := []
  published_at : PyStr := []
  description : PyStr := []
  image_url : PyStr := []
  translated_title : PyStr := []
  translated_description : PyStr := []
  type : PyStr := []
  symbol : PyStr := []
  date : PyStr := []
  reportedCurrency : PyStr := []
  revenue : Int := 0
  netIncome : Int := 0
  eps : Int := 0
  grossProfit : Int := 0
  operatingIncome : Int := 0
deriving DecidableEq

/-- `items[0].get("type")` — the type of the head item (the empty string
on an empty list, a case both callers short-circuit earlier). -/
def headType : List Item → PyStr
  | [] => []
  | it :: _ => it.type

/-- The `seen_urls` / `unique_items` loop of `fetch_news`: keep an item
iff its `url` has not been seen before. -/
def dedupByUrl : List Item → List PyStr → List Item
  | [], _ => []
  | it :: rest, seen =>
    if it.url ∈ seen then dedupByUrl rest seen
    else it :: dedupByUrl rest (it.url :: seen)

/-- The API selector strings accepted by `fetch_news`. -/
def apiNames : List PyStr :=
  [str "GNews", str "World News API", str "CoinGecko (Crypto News)",
   str "Financial Report (FMP)", str "CurrentsAPI"]

/-- `fetch_news`, given the `(items, error)` pair the dispatched adapter
returned: an unknown API name yields `[]`; a non-report API deduplicates
by `url` (first occurrence wins) and truncates to `max_records`; the
report API only truncates. -/
def fetch_news (selected_api : PyStr) (result : List Item × Option PyStr)
    (max_records : Nat) : List Item :=
  if selected_api ∈ apiNames then
    if selected_api ≠ str "Financial Report (FMP)" then
      (dedupByUrl result.1 []).take max_records
    else
      result.1.take max_records
  else []

/-- Python `<=` on datetimes: naive pairs compare field values, aware
pairs compare absolute instants, and a mixed pair raises `TypeError`. -/
def pyLeDT (a b : PyDateTime) : Except PyErr Bool :=
  match a.tz, b.tz with
  | none, none => .ok (decide (a.usec ≤ b.usec))
  | some x, some y => .ok (decide ((a.usec : Int) - x ≤ (b.usec : Int) - y))
  | _, _ => .error .typeError

/-- The filter loop shared by both modes of `filter_articles_by_time`:
append each item for which `keep` answers true, propagating any raise. -/
def filterLoop (keep : Item → Except PyErr Bool) : List Item → Except PyErr (List Item)
  | [] => .ok []
  | it :: rest => do
    let b ← keep it
    let tail ← filterLoop keep rest
    pure (if b then it :: tail else tail)

/-- The `time_range_hours` argument: a finite `timedelta(hours=h)` in
microseconds, or `float("inf")` which selects the explicit-range mode. -/
inductive TimeRange where
  | hoursUs (h : Int)
  | inf
deriving DecidableEq

/-- The explicit-range keep test: `start_datetime <= t <= end_datetime`
with Python's lazy chained comparison. -/
def keepInRange (startDT endDT : PyDateTime) (it : Item) : Except PyErr Bool := do
  match ← parse_to_tehran_time it.published_at with
  | none => pure false
  | some t =>
    let b1 ← pyLeDT startDT t
    if b1 then pyLeDT t endDT else pure false

/-- The relative-window keep test: `t >= cutoff_time`. -/
def keepRecent (cutoff : PyDateTime) (it : Item) : Except PyErr Bool := do
  match ← parse_to_tehran_time it.published_at with
  | none => pure false
  | some t => pyLeDT cutoff t

/-- A Python `date` as its proleptic-Gregorian day number (0001-01-01 is
day 0; every constructible `date` satisfies `day ≤ 3652058`). -/
abbrev PyDate := Nat

/-- The `try` body of `filter_articles_by_time`: build the selected
mode's window and run the loop; `nowTehran` is the already-shifted
current time.  A raise inside it (unrepresentable window endpoints,
`None` dates, a parse `OverflowError`, or a naive/aware comparison
`TypeError`) is what the caller's `except` catches. -/
def filterBody (items : List Item) (time_range : TimeRange)
    (start_date end_date : Option PyDate) (nowTehran : Nat) :
    Except PyErr (List Item) :=
  match time_range with
  | .inf =>
    match start_date, end_date with
    | some ds, some de =>
      if ds * 86400000000 + tehranDeltaUsec > maxUsec ∨
          de * 86400000000 + 86399999999 + tehranDeltaUsec > maxUsec then
        .error .overflowError
      else
        filterLoop
          (keepInRange ⟨ds * 86400000000 + tehranDeltaUsec, none⟩
            ⟨de * 86400000000 + 86399999999 + tehranDeltaUsec, none⟩) items
    | _, _ => .error .typeError
  | .hoursUs h =>
    if (nowTehran : Int) - h < 0 ∨ (nowTehran : Int) - h > (maxUsec : Int) then
      .error .overflowError
    else filterLoop (keepRecent ⟨((nowTehran : Int) - h).toNat, none⟩) items

/-- `filter_articles_by_time`.  Empty input returns `[]`; a report batch
and the `disable_filter` flag return the input unchanged.  Otherwise the
current Tehran time is computed outside the `try` block (its overflow
would escape), and the selected mode's loop runs inside the `try`: any
raise there is caught and the whole input list is returned. -/
def filter_articles_by_time (items : List Item) (time_range : TimeRange)
    (start_date end_date : Option PyDate) (disable_filter : Bool)
    (nowUtc : Nat) : Except PyErr (List Item) :=
  if items.isEmpty then .ok []
  else if headType items = str "report" then .ok items
  else if disable_filter then .ok items
  else if nowUtc + tehranDeltaUsec > maxUsec then .error .overflowError
  else
    match filterBody items time_range start_date end_date (nowUtc + tehranDeltaUsec) with
    | .ok l => .ok l
    | .error _ => .ok items

/-- The sort key of `pre_process_articles`:
`parse_to_tehran_time(x["published_at"]) or datetime.min`, propagating
the parse's possible `OverflowError`. -/
def pyKeyOf (it : Item) : Except PyErr PyDateTime :=
  match parse_to_tehran_time it.published_at with
  | .error e => .error e
  | .ok none => .ok ⟨0, none⟩
  | .ok (some t) => .ok t

/-- Comparison value of a datetime key (within one awareness kind,
Python's order coincides with `usec - utcoffset`). -/
def cmpVal (t : PyDateTime) : Int := (t.usec : Int) - (t.tz.getD 0)

/-- The sort comparator of `pre_process_articles` on (item, key) pairs:
stable descending order by key, i.e. `sorted(..., reverse=True)`. -/
def lePairKey (a b : Item × PyDateTime) : Bool :=
  decide (cmpVal b.2 ≤ cmpVal a.2)

/-- The timestamp key of an item as a plain integer (unparseable or
raising timestamps map to 0, `datetime.min`); on naive-only batches this
is exactly the Python sort key's order. -/
def itemKeyVal (it : Item) : Int :=
  match parse_to_tehran_time it.published_at with
  | .ok (some t) => cmpVal t
  | _ => 0

/-- An item with its translation fields cleared — the part of the record
`pre_process_articles` never rewrites. -/
def coreOf (it : Item) : Item :=
  { it with translated_title := [], translated_description := [] }

/-- The per-item translation step of `pre_process_articles` at sorted
position `i`: the first `num` items go through the translation endpoint
(modelled by the oracle `tr`), every other item copies its original
fields. -/
def translItem (tr : PyStr → PyStr) (enable : Bool) (num : Nat) (i : Nat)
    (it : Item) : Item :=
  if enable && decide (i < num) then
    { it with translated_title := tr it.title,
              translated_description := tr it.description }
  else
    { it with translated_title := it.title,
              translated_description := it.description }

/-- The `for i, item in enumerate(sorted_items)` loop applying
`translItem` at each index. -/
def applyTransl (tr : PyStr → PyStr) (enable : Bool) (num : Nat) :
    Nat → List Item → List Item
  | _, [] => []
  | i, it :: rest =>
    translItem tr enable num i it :: applyTransl tr enable num (i + 1) rest

/-- `pre_process_articles`.  Empty input returns `[]`, a report batch is
returned unchanged.  Otherwise the items are sorted descending by parsed
timestamp (stable, as `sorted(..., reverse=True)`); computing a key can
raise `OverflowError` and comparing a naive with an aware key raises
`TypeError`, and either raise is caught by the surrounding `except`,
returning the input unchanged.  On the normal path the enumerate loop
fills the translation fields. -/
def pre_process_articles (items : List Item) (tr : PyStr → PyStr)
    (enable_translation : Bool) (num_items_to_translate : Nat) : List Item :=
  if items.isEmpty then []
  else if headType items = str "report" then items
  else
    match items.mapM pyKeyOf with
    | .error _ => items
    | .ok ks =>
      if ks.any (fun t => t.tz.isSome) && ks.any (fun t => t.tz.isNone) then items
      else
        applyTransl tr enable_translation num_items_to_translate 0
          (((items.zip ks).mergeSort lePairKey).map Prod.fst)

/-! ### Selection state (the checkbox handlers in `display_items`) -/

/-- The checked-checkbox handler: append the item unless some selected
entry already has its `url`. -/
def selectionAdd (selected : List Item) (item : Item) : List Item :=
  if selected.any (fun a => decide (a.url = item.url)) then selected
  else selected ++ [item]

/-- The unchecked-checkbox handler: when some selected entry has the
item's `url`, keep only the entries with a different `url`. -/
def selectionRemove (selected : List Item) (item : Item) : List Item :=
  if selected.any (fun a => decide (a.url = item.url)) then
    selected.filter (fun a => decide (a.url ≠ item.url))
  else selected

/-! ### Decimal and calendar rendering helpers (f-string formatting) -/

/-- The ASCII digit for `n < 10`. -/
def digitChar (n : Nat) : Char := Char.ofNat (48 + n)

/-- Decimal digits of a natural number (Python `str(n)` for `n ≥ 0`). -/
def natDigits (n : Nat) : PyStr :=
  if _h : n < 10 then [digitChar n]
  else natDigits (n / 10) ++ [digitChar (n % 10)]
decreasing_by exact Nat.div_lt_self (by omega) (by omega)

/-- Python `str(i)` for an integer. -/
def intStr (i : Int) : PyStr :=
  if i < 0 then '-' :: natDigits i.natAbs else natDigits i.natAbs

/-- Left-pad with zeroes to width `w` (strftime zero padding). -/
def padZ (w : Nat) (s : PyStr) : PyStr :=
  List.replicate (w - s.length) '0' ++ s

/-- Helper for `{:,}` formatting: walking the reversed digit string,
insert a comma after every third digit. -/
def commaRevAux : PyStr → Nat → PyStr
  | [], _ => []
  | c :: rest, k =>
    if (k + 1) % 3 = 0 ∧ rest ≠ [] then c :: ',' :: commaRevAux rest (k + 1)
    else c :: commaRevAux rest (k + 1)

/-- Python `f"{i:,}"`: decimal with thousands separators. -/
def intCommaStr (i : Int) : PyStr :=
  let body := (commaRevAux (natDigits i.natAbs).reverse 0).reverse
  if i < 0 then '-' :: body else body

/-- Gregorian date of a day number (inverse of `daysFromCivil`). -/
def civilFromDays (z : Nat) : Nat × Nat × Nat :=
  let z' := z + 306
  let era := z' / 146097
  let doe := z' % 146097
  let yoe := (doe - doe / 1460 + doe / 36524 - doe / 146096) / 365
  let doy := doe - (365 * yoe + yoe / 4 - yoe / 100)
  let mp := (5 * doy + 2) / 153
  let d := doy - (153 * mp + 2) / 5 + 1
  let m := if mp < 10 then mp + 3 else mp - 9
  let y := yoe + era * 400
  (if m ≤ 2 then y + 1 else y, m, d)

/-- `format_tehran_time`: `strftime("%Y/%m/%d - %H:%M")`. -/
def format_tehran_time (t : PyDateTime) : PyStr :=
  let days := t.usec / 86400000000
  let rem := t.usec % 86400000000
  let (y, m, d) := civilFromDays days
  let h := rem / 3600000000
  let mi := rem % 3600000000 / 60000000
  padZ 4 (natDigits y) ++ str "/" ++ padZ 2 (natDigits m) ++ str "/" ++
    padZ 2 (natDigits d) ++ str " - " ++ padZ 2 (natDigits h) ++ str ":" ++
    padZ 2 (natDigits mi)

/-- The prefix of `s` up to (excluding) its last space — Python
`s.rsplit(" ", 1)[0]` — or `s` itself when it has no space. -/
def beforeLastSpace (s : PyStr) : PyStr :=
  if s.any (fun c => decide (c = ' ')) then
    ((s.reverse.dropWhile (fun c => decide (c ≠ ' '))).tail).reverse
  else s

/-- `truncate_text`: strings longer than `max_length` are cut there,
trimmed back to the last space, and suffixed with `"..."`. -/
def truncate_text (text : PyStr) (max_length : Nat) : PyStr :=
  if text.length > max_length then
    beforeLastSpace (text.take max_length) ++ str "..."
  else text

/-! ### Telegram delivery -/

/-- The `chat_id` value handed to the Bot API: the raw string from the
UI, or the numeric id obtained from username resolution. -/
inductive ChatRef where
  | name (s : PyStr)
  | id (n : Int)
deriving DecidableEq

/-- The JSON body of a `sendMessage` response. -/
structure TgSendResp where
  ok : Bool
  description : Option PyStr
deriving DecidableEq

/-- The text `send_telegram_message` actually POSTs: the message,
truncated to Telegram's limit. -/
def telegramPostedText (message : PyStr) : PyStr :=
  if message.length > 4096 then message.take 4093 ++ str "..." else message

/-- `send_telegram_message`, with the network modelled by `net` (an
`Except` error is a `requests` exception carrying its rendered text). -/
def send_telegram_message (chat : ChatRef) (message : PyStr)
    (net : ChatRef → PyStr → Except PyStr TgSendResp) : Bool × PyStr :=
  match net chat (telegramPostedText message) with
  | .error e => (false, str "Failed to send message to Telegram: " ++ e)
  | .ok r =>
    if r.ok then (true, str "Message sent successfully")
    else (false, str "Error: " ++ r.description.getD (str "Unknown error"))

/-- One chat record inside a `getUpdates` entry. -/
structure TgChat where
  username : PyStr := []
  type : PyStr := []
  title : PyStr := []
  id : Int := 0
deriving DecidableEq

/-- The JSON body of a `getUpdates` response; `none` entries are updates
without a `message.chat`. -/
structure TgUpdatesResp where
  ok : Bool
  result : List (Option TgChat)
deriving DecidableEq

/-- Python `chat_ids[k]` lookup on the username → chat-id dict. -/
def dictGet (m : List (PyStr × Int)) (k : PyStr) : Option Int :=
  (m.find? (fun p => decide (p.1 = k))).map (fun p => p.2)

/-- Python `chat_ids[k] = v`: replace in place, or append a new key. -/
def dictSet (m : List (PyStr × Int)) (k : PyStr) (v : Int) : List (PyStr × Int) :=
  if (m.find? (fun p => decide (p.1 = k))).isSome then
    m.map (fun p => if p.1 = k then (k, v) else p)
  else m ++ [(k, v)]

/-- The `getUpdates` scan of `get_chat_id_from_username`: the first
entry whose chat has the username (lowercased), or is a group/supergroup
whose title contains it. -/
def scanUpdates (u : PyStr) : List (Option TgChat) → Option TgChat
  | [] => none
  | none :: rest => scanUpdates u rest
  | some c :: rest =>
    if pyLower c.username = u then some c
    else if (c.type = str "group" ∨ c.type = str "supergroup") ∧
        pyContains (pyLower c.title) (pyLower u) then some c
    else scanUpdates u rest

/-- `get_chat_id_from_username`: returns the resolution result pair and
the (possibly extended) username → chat-id cache. -/
def get_chat_id_from_username (username : PyStr) (chat_ids : List (PyStr × Int))
    (net : Except PyStr TgUpdatesResp) :
    (Option Int × Option PyStr) × List (PyStr × Int) :=
  if ¬ pyStartsWith username (str "@") then
    ((none, some (str "Username must start with @ (e.g., @username)")), chat_ids)
  else
    let u := pyLower (username.drop 1)
    match dictGet chat_ids u with
    | some cid => ((some cid, none), chat_ids)
    | none =>
      match net with
      | .error e =>
        ((none, some (str "Failed to fetch Chat ID for username " ++ u ++ str ": " ++ e)),
          chat_ids)
      | .ok resp =>
        if ¬ resp.ok then
          ((none, some (str "Failed to fetch updates from Telegram")), chat_ids)
        else
          match scanUpdates u resp.result with
          | some c => ((some c.id, none), dictSet chat_ids u c.id)
          | none =>
            ((none, some (str "Chat ID not found for username @" ++ u ++
              str ". Make sure the user/group has interacted with the bot.")), chat_ids)

/-- Python truthiness `a or b` on strings. -/
def strOr (a b : PyStr) : PyStr := if a = [] then b else a

/-- The per-item Telegram message of the send loop in `main`: builds the
news template (which can raise the parse's `OverflowError`, caught by
the per-item handler) or the financial-report template.  `tr` models
`translate_with_avalai` and `extract` models `extract_article_content`
(both total: each returns its fallback text instead of raising). -/
def buildMessage (tr extract : PyStr → PyStr) (it : Item) : Except PyErr PyStr :=
  if it.type = str "news" then do
    let t ← parse_to_tehran_time it.published_at
    let tstr := match t with
      | some dt => format_tehran_time dt
      | none => it.published_at
    let ft0 := strOr it.translated_title it.title
    let ft := if ft0 = [] ∨ ft0 = it.title then tr it.title else ft0
    let fd0 := strOr it.translated_description it.description
    let fd := if fd0 = [] ∨ fd0 = it.description then tr it.description else fd0
    let td := truncate_text fd 100
    let content := tr (extract it.url)
    pure (str "*" ++ ft ++ str "*\n\n" ++ td ++ str "\n\n**زمان انتشار:** " ++
      tstr ++ str "\n\n**پیش‌نمایش مقاله (Instant View):**\n" ++ content ++
      str "\n\n[ادامه مطلب](" ++ it.url ++ str ")")
  else
    pure (str "**گزارش مالی شرکت " ++ it.symbol ++ str "**\n\n**تاریخ گزارش:** " ++
      it.date ++ str "\n**ارز گزارش:** " ++ it.reportedCurrency ++
      str "\n**درآمد:** " ++ intCommaStr it.revenue ++ str " " ++ it.reportedCurrency ++
      str "\n**سود خالص:** " ++ intCommaStr it.netIncome ++ str " " ++ it.reportedCurrency ++
      str "\n**سود هر سهم (EPS):** " ++ intStr it.eps ++
      str "\n**سود ناخالص:** " ++ intCommaStr it.grossProfit ++ str " " ++ it.reportedCurrency ++
      str "\n**درآمد عملیاتی:** " ++ intCommaStr it.operatingIncome ++ str " " ++ it.reportedCurrency)

/-- Counts and POST attempts produced by one press of "Send Selected
Items to Telegram". -/
structure SendOutcome where
  success_count : Nat
  fail_count : Nat
  attempts : List (ChatRef × PyStr)
deriving DecidableEq

/-- The `for item in st.session_state.selected_items` loop: build each
message, attempt the send, and tally; a raise while building is caught
per item and counted as a failure without a POST. -/
def sendLoop (sendNet : ChatRef → PyStr → Except PyStr TgSendResp)
    (tr extract : PyStr → PyStr) (chat : ChatRef) : List Item → Nat × Nat × List (ChatRef × PyStr)
  | [] => (0, 0, [])
  | it :: rest =>
    let tail := sendLoop sendNet tr extract chat rest
    match buildMessage tr extract it with
    | .error _ => (tail.1, tail.2.1 + 1, tail.2.2)
    | .ok msg =>
      let res := send_telegram_message chat msg sendNet
      if res.1 then (tail.1 + 1, tail.2.1, (chat, telegramPostedText msg) :: tail.2.2)
      else (tail.1, tail.2.1 + 1, (chat, telegramPostedText msg) :: tail.2.2)

/-- The whole send operation of `main`: pick the target, resolve an
`@username` (on resolution failure `fail_count` is set to the number of
selected items — and the loop still runs against the raw username
string), then run the send loop and add its tallies. -/
def send_selected (selected : List Item) (user_or_group default_chat : PyStr)
    (chat_ids : List (PyStr × Int)) (updNet : Except PyStr TgUpdatesResp)
    (sendNet : ChatRef → PyStr → Except PyStr TgSendResp)
    (tr extract : PyStr → PyStr) : SendOutcome :=
  let target := if user_or_group ≠ [] then user_or_group else default_chat
  let resolved : Nat × ChatRef :=
    if pyStartsWith target (str "@") then
      match (get_chat_id_from_username target chat_ids updNet).1 with
      | (some cid, _) => (0, .id cid)
      | (none, _) => (selected.length, .name target)
    else (0, .name target)
  let r := sendLoop sendNet tr extract resolved.2 selected
  ⟨r.1, resolved.1 + r.2.1, r.2.2⟩

/-! ### Source adapters with an API-key check (GNews, World News API,
Financial Modeling Prep, CurrentsAPI).  Each takes its configured key
and the network outcome it would observe; the `Bool` in the result
records whether an HTTP request was made. -/

/-- A GNews article object (`None`-able fields as `.get` sees them). -/
structure GNewsArticle where
  title : Option PyStr := none
  url : Option PyStr := none
  sourceName : Option PyStr := none
  publishedAt : Option PyStr := none
  description : Option PyStr := none
  image : Option PyStr := none
deriving DecidableEq

/-- A GNews response body: the optional `errors` field and the
`articles` array. -/
structure GNewsResp where
  errors : Option PyStr := none
  articles : List GNewsArticle := []
deriving DecidableEq

/-- `a.get(k, "") or default`. -/
def getOrDefault (o : Option PyStr) (d : PyStr) : PyStr :=
  if o.getD [] = [] then d else o.getD []

/-- Field mapping of one GNews article into the Item shape. -/
def gnewsToItem (a : GNewsArticle) : Item :=
  { title := a.title.getD (str "No title"),
    url := a.url.getD [],
    source := a.sourceName.getD (str "Unknown Source"),
    published_at := a.publishedAt.getD [],
    description := getOrDefault a.description (str "No description available"),
    image_url := a.image.getD [],
    translated_title := [],
    translated_description := [],
    type := str "news" }

/-- `fetch_gnews`. -/
def fetch_gnews (api_key query : PyStr) (net : Except PyStr GNewsResp) :
    (List Item × Option PyStr) × Bool :=
  if api_key = [] ∨ api_key = str "YOUR_GNEWS_API_KEY" then
    (([], some (str "Invalid GNews API key. Please set a valid API key in Render environment variables.")), false)
  else
    match net with
    | .error e => (([], some (str "Failed to fetch news from GNews: " ++ e)), true)
    | .ok resp =>
      match resp.errors with
      | some errs => (([], some (str "GNews API error: " ++ errs)), true)
      | none =>
        if resp.articles = [] then
          (([], some (str "No articles found for query '" ++ query ++ str "' in GNews.")), true)
        else
          ((resp.articles.map gnewsToItem, none), true)

/-- A World News API article object. -/
structure WNArticle where
  title : Option PyStr := none
  url : Option PyStr := none
  source : Option PyStr := none
  publish_date : Option PyStr := none
  text : Option PyStr := none
  image : Option PyStr := none
deriving DecidableEq

/-- A World News API response body. -/
structure WNResp where
  error : Option PyStr := none
  news : List WNArticle := []
deriving DecidableEq

/-- Field mapping of one World News article into the Item shape. -/
def wnToItem (a : WNArticle) : Item :=
  { title := a.title.getD (str "No title"),
    url := a.url.getD [],
    source := a.source.getD (str "Unknown Source"),
    published_at := a.publish_date.getD [],
    description := getOrDefault a.text (str "No description available"),
    image_url := a.image.getD [],
    translated_title := [],
    translated_description := [],
    type := str "news" }

/-- `fetch_worldnews`. -/
def fetch_worldnews (api_key query : PyStr) (net : Except PyStr WNResp) :
    (List Item × Option PyStr) × Bool :=
  if api_key = [] ∨ api_key = str "YOUR_WORLDNEWS_API_KEY" then
    (([], some (str "Invalid World News API key. Please set a valid API key in Render environment variables.")), false)
  else
    match net with
    | .error e => (([], some (str "Failed to fetch news from World News API: " ++ e)), true)
    | .ok resp =>
      match resp.error with
      | some e => (([], some (str "World News API error: " ++ e)), true)
      | none =>
        if resp.news = [] then
          (([], some (str "No articles found for query '" ++ query ++ str "' in World News API.")), true)
        else
          ((resp.news.map wnToItem, none), true)

/-- One income-statement object from Financial Modeling Prep. -/
structure FmpReport where
  symbol : Option PyStr := none
  date : Option PyStr := none
  revenue : Option Int := none
  netIncome : Option Int := none
  eps : Option Int := none
  grossProfit : Option Int := none
  operatingIncome : Option Int := none
  reportedCurrency : Option PyStr := none
deriving DecidableEq

/-- An FMP response: the expected JSON list, or some other JSON shape. -/
inductive FmpResp where
  | notList
  | list (reports : List FmpReport)
deriving DecidableEq

/-- `datetime.strptime(s, "%Y-%m-%d")`, as a day number. -/
def dateOnly (s : PyStr) : Option Nat :=
  (fmt8 s).map (fun dt => dt.usec / 86400000000)

/-- The date filter + field mapping loop of `fetch_financial_report`:
with both bounds given, a report is kept only when all three dates parse
and the report date lies inside the closed range (a `ValueError` skips
the report). -/
def fmpMapReports (from_date to_date : Option PyStr) : List FmpReport → List Item
  | [] => []
  | r :: rest =>
    let keep : Bool :=
      match from_date, to_date with
      | some f, some t =>
        if f ≠ [] ∧ t ≠ [] then
          match dateOnly (r.date.getD []), dateOnly f, dateOnly t with
          | some rd, some fd, some td => decide (fd ≤ rd) && decide (rd ≤ td)
          | _, _, _ => false
        else true
      | _, _ => true
    let item : Item :=
      { symbol := r.symbol.getD [],
        date := r.date.getD [],
        revenue := r.revenue.getD 0,
        netIncome := r.netIncome.getD 0,
        eps := r.eps.getD 0,
        grossProfit := r.grossProfit.getD 0,
        operatingIncome := r.operatingIncome.getD 0,
        reportedCurrency := r.reportedCurrency.getD (str "USD"),
        type := str "report" }
    if keep then item :: fmpMapReports from_date to_date rest
    else fmpMapReports from_date to_date rest

/-- `fetch_financial_report` (the repr of the offending payload in the
not-a-list message is elided). -/
def fetch_financial_report (api_key symbol : PyStr) (from_date to_date : Option PyStr)
    (net : Except PyStr FmpResp) : (List Item × Option PyStr) × Bool :=
  if api_key = [] ∨ api_key = str "YOUR_FMP_API_KEY" then
    (([], some (str "Invalid Financial Modeling Prep API key. Please set a valid API key in Render environment variables.")), false)
  else
    match net with
    | .error e => (([], some (str "Failed to fetch financial report from FMP: " ++ e)), true)
    | .ok .notList => (([], some (str "Unexpected response format from Financial Modeling Prep")), true)
    | .ok (.list reports) =>
      if reports = [] then
        (([], some (str "No financial reports found for symbol '" ++ symbol ++
          str "'. Please check the symbol and try again.")), true)
      else
        ((fmpMapReports from_date to_date reports, none), true)

/-- A CurrentsAPI article object. -/
structure CurArticle where
  title : Option PyStr := none
  url : Option PyStr := none
  sourceName : Option PyStr := none
  published : Option PyStr := none
  description : Option PyStr := none
  image : Option PyStr := none
deriving DecidableEq

/-- A CurrentsAPI response body. -/
structure CurResp where
  status : Option PyStr := none
  message : Option PyStr := none
  news : List CurArticle := []
deriving DecidableEq

/-- Field mapping of one CurrentsAPI article into the Item shape. -/
def curToItem (a : CurArticle) : Item :=
  { title := a.title.getD (str "No title"),
    url := a.url.getD [],
    source := a.sourceName.getD (str "Unknown Source"),
    published_at := a.published.getD [],
    description := getOrDefault a.description (str "No description available"),
    image_url := a.image.getD [],
    translated_title := [],
    translated_description := [],
    type := str "news" }

/-- `fetch_currentsapi_news`. -/
def fetch_currentsapi_news (api_key query : PyStr) (net : Except PyStr CurResp) :
    (List Item × Option PyStr) × Bool :=
  if api_key = [] ∨ api_key = str "YOUR_CURRENTSAPI_API_KEY" then
    (([], some (str "Invalid CurrentsAPI key. Please set a valid API key in Render environment variables.")), false)
  else
    match net with
    | .error e => (([], some (str "Failed to fetch news from CurrentsAPI: " ++ e)), true)
    | .ok resp =>
      if resp.status = some (str "error") then
        (([], some (str "CurrentsAPI error: " ++ resp.message.getD (str "Unknown error"))), true)
      else if resp.news = [] then
        (([], some (str "No articles found for query '" ++ query ++ str "' in CurrentsAPI.")), true)
      else
        ((resp.news.map curToItem, none), true)

/-! ### JSON persistence (`save_articles_to_file` / `load_articles_from_file`)

The cache file holds `json.dump(articles)` where `articles` is a list of
flat dicts with string and integer values (the Item/Report records).  A
dict is modelled as its insertion-ordered key/value sequence.  The
printer follows `json.dumps` defaults (`", "` and `": "` separators,
`ensure_ascii=True` with `\uXXXX` escapes and surrogate pairs); the
parser models `json.load` on this fragment of JSON (numbers with a
fraction or exponent are floats and other value shapes never occur in
the cache file, so the model rejects them). -/

/-- A JSON-serialisable primitive value of a record field. -/
inductive Prim where
  | pstr (s : PyStr)
  | pint (n : Int)
deriving DecidableEq

/-- One flat record: a Python dict as its ordered key/value pairs. -/
abbrev JRec := List (PyStr × Prim)

/-- The `"` character. -/
def quoteC : Char := Char.ofNat 34

/-- The backslash character. -/
def backslashC : Char := Char.ofNat 92

/-- The opening-brace character. -/
def lbraceC : Char := Char.ofNat 123

/-- The closing-brace character. -/
def rbraceC : Char := Char.ofNat 125

/-- Lowercase hex digit. -/
def hexDigit (n : Nat) : Char :=
  if n < 10 then Char.ofNat (48 + n) else Char.ofNat (87 + n)

/-- Four lowercase hex digits (the payload of a `\uXXXX` escape). -/
def hex4 (n : Nat) : PyStr :=
  [hexDigit (n / 4096 % 16), hexDigit (n / 256 % 16), hexDigit (n / 16 % 16),
   hexDigit (n % 16)]

/-- `json.dumps` escaping of one code point with `ensure_ascii=True`:
named escapes, printable ASCII verbatim, `\uXXXX` otherwise, with a
surrogate pair above U+FFFF. -/
def escapeChar (c : Char) : PyStr :=
  if c = quoteC then [backslashC, quoteC]
  else if c = backslashC then [backslashC, backslashC]
  else if c.toNat = 8 then [backslashC, 'b']
  else if c.toNat = 12 then [backslashC, 'f']
  else if c = '\n' then [backslashC, 'n']
  else if c = '\r' then [backslashC, 'r']
  else if c = '\t' then [backslashC, 't']
  else if 32 ≤ c.toNat ∧ c.toNat ≤ 126 then [c]
  else if c.toNat < 65536 then backslashC :: 'u' :: hex4 c.toNat
  else
    (backslashC :: 'u' :: hex4 (55296 + (c.toNat - 65536) / 1024)) ++
    (backslashC :: 'u' :: hex4 (56320 + (c.toNat - 65536) % 1024))

/-- A serialised JSON string literal. -/
def escStr (s : PyStr) : PyStr :=
  quoteC :: (s.map escapeChar).flatten ++ [quoteC]

/-- A serialised primitive. -/
def dumpPrim : Prim → PyStr
  | .pstr s => escStr s
  | .pint n => intStr n

/-- Join with a separator (`", ".join`). -/
def joinSep (sep : PyStr) : List PyStr → PyStr
  | [] => []
  | [x] => x
  | x :: y :: xs => x ++ sep ++ joinSep sep (y :: xs)

/-- One serialised key/value pair. -/
def dumpPair (kv : PyStr × Prim) : PyStr :=
  escStr kv.1 ++ str ": " ++ dumpPrim kv.2

/-- One serialised record. -/
def dumpRec (r : JRec) : PyStr :=
  lbraceC :: joinSep (str ", ") (r.map dumpPair) ++ [rbraceC]

/-- The serialised record list — the exact cache-file content
`json.dump` writes. -/
def dumpRecs (rs : List JRec) : PyStr :=
  '[' :: joinSep (str ", ") (rs.map dumpRec) ++ [']']

/-- JSON whitespace. -/
def isJsonWs (c : Char) : Bool :=
  c = ' ' || c = '\t' || c = '\n' || c = '\r'

/-- Skip JSON whitespace. -/
def skipWs (s : PyStr) : PyStr := s.dropWhile isJsonWs

/-- Hex digit value (either case). -/
def hexVal (c : Char) : Option Nat :=
  if '0' ≤ c ∧ c ≤ '9' then some (c.toNat - 48)
  else if 'a' ≤ c ∧ c ≤ 'f' then some (c.toNat - 87)
  else if 'A' ≤ c ∧ c ≤ 'F' then some (c.toNat - 55)
  else none

/-- Four hex digits of a `\uXXXX` escape. -/
def parseHex4 : PyStr → Option (Nat × PyStr)
  | a :: b :: c :: d :: rest =>
    (hexVal a).bind (fun va => (hexVal b).bind (fun vb => (hexVal c).bind (fun vc =>
      (hexVal d).map (fun vd => (((va * 16 + vb) * 16 + vc) * 16 + vd, rest)))))
  | _ => none

/-- One `\uXXXX` escape payload, greedily combining a surrogate pair;
a lone surrogate would decode to a `str` value outside Unicode scalar
values, which the record model cannot hold, so it is rejected — the
printer never emits one. -/
def parseUEscape (s : PyStr) : Option (Char × PyStr) :=
  match parseHex4 s with
  | none => none
  | some (v, rest) =>
    if 55296 ≤ v ∧ v ≤ 56319 then
      match rest with
      | b1 :: u1 :: rest2 =>
        if b1 = backslashC ∧ u1 = 'u' then
          match parseHex4 rest2 with
          | some (w, rest3) =>
            if 56320 ≤ w ∧ w ≤ 57343 then
              some (Char.ofNat (65536 + (v - 55296) * 1024 + (w - 56320)), rest3)
            else none
          | none => none
        else none
      | _ => none
    else if 56320 ≤ v ∧ v ≤ 57343 then none
    else some (Char.ofNat v, rest)

/-- The body of a JSON string literal up to its closing quote, decoding
escapes.  Raw control characters are rejected as in the default strict
mode. -/
def parseStrBody : Nat → PyStr → Option (PyStr × PyStr)
  | 0, _ => none
  | _, [] => none
  | fuel + 1, c :: rest =>
    if c = quoteC then some ([], rest)
    else if c = backslashC then
      match rest with
      | [] => none
      | e :: rest' =>
        if e = quoteC ∨ e = backslashC ∨ e = '/' then
          (parseStrBody fuel rest').map (fun p => (e :: p.1, p.2))
        else if e = 'b' then
          (parseStrBody fuel rest').map (fun p => (Char.ofNat 8 :: p.1, p.2))
        else if e = 'f' then
          (parseStrBody fuel rest').map (fun p => (Char.ofNat 12 :: p.1, p.2))
        else if e = 'n' then
          (parseStrBody fuel rest').map (fun p => ('\n' :: p.1, p.2))
        else if e = 'r' then
          (parseStrBody fuel rest').map (fun p => ('\r' :: p.1, p.2))
        else if e = 't' then
          (parseStrBody fuel rest').map (fun p => ('\t' :: p.1, p.2))
        else if e = 'u' then
          match parseUEscape rest' with
          | some (ch, r) => (parseStrBody fuel r).map (fun p => (ch :: p.1, p.2))
          | none => none
        else none
    else if c.toNat < 32 then none
    else (parseStrBody fuel rest).map (fun p => (c :: p.1, p.2))

/-- The digits of a JSON integer literal (no leading zero). -/
def parseNatTok (s : PyStr) : Option (Nat × PyStr) :=
  let ds := s.takeWhile isDigitC
  let rest := s.drop ds.length
  match ds with
  | [] => none
  | d :: ds' =>
    if d = '0' ∧ ds' ≠ [] then none
    else some (ds.foldl (fun acc c => acc * 10 + digitVal c) 0, rest)

/-- The integral part of a JSON number, accepted only when not followed
by a fraction or exponent (those would load as floats, which the record
model cannot hold). -/
def parseIntCore (t : PyStr) : Option (Int × PyStr) :=
  match parseNatTok t with
  | none => none
  | some (n, rest) =>
    if rest.head? = some '.' ∨ rest.head? = some 'e' ∨ rest.head? = some 'E' then none
    else some ((n : Int), rest)

/-- A JSON number token restricted to integers. -/
def parseIntTok (s : PyStr) : Option (Int × PyStr) :=
  if s.head? = some '-' then (parseIntCore s.tail).map (fun p => (-p.1, p.2))
  else parseIntCore s

/-- A primitive JSON value (string or integer) at the start of `s`. -/
def parsePrim (fuel : Nat) (s : PyStr) : Option (Prim × PyStr) :=
  match s with
  | [] => none
  | c :: rest =>
    if c = quoteC then (parseStrBody fuel rest).map (fun p => (.pstr p.1, p.2))
    else if c = '-' ∨ isDigitC c then (parseIntTok s).map (fun p => (.pint p.1, p.2))
    else none

/-- The key/value pairs of an object after its first key has been
reached, ending at the closing brace. -/
def parsePairs : Nat → Nat → PyStr → Option (JRec × PyStr)
  | 0, _, _ => none
  | fp + 1, fs, s =>
    match skipWs s with
    | [] => none
    | c :: rest =>
      if c = quoteC then
        match parseStrBody fs rest with
        | none => none
        | some (k, rest1) =>
          match skipWs rest1 with
          | c1 :: rest2 =>
            if c1 = ':' then
              match parsePrim fs (skipWs rest2) with
              | none => none
              | some (v, rest3) =>
                match skipWs rest3 with
                | c2 :: rest4 =>
                  if c2 = ',' then
                    (parsePairs fp fs rest4).map (fun p => ((k, v) :: p.1, p.2))
                  else if c2 = rbraceC then some ([(k, v)], rest4)
                  else none
                | [] => none
            else none
          | [] => none
      else none

/-- One JSON object restricted to primitive values. -/
def parseRec (fp fs : Nat) (s : PyStr) : Option (JRec × PyStr) :=
  match skipWs s with
  | [] => none
  | c :: rest =>
    if c = lbraceC then
      match skipWs rest with
      | c1 :: rest1 =>
        if c1 = rbraceC then some ([], rest1)
        else parsePairs fp fs rest
      | [] => none
    else none

/-- The elements of the top-level array after the first element has been
reached, ending at the closing bracket. -/
def parseRecsTail : Nat → Nat → Nat → PyStr → Option (List JRec × PyStr)
  | 0, _, _, _ => none
  | fr + 1, fp, fs, s =>
    match parseRec fp fs s with
    | none => none
    | some (r, rest) =>
      match skipWs rest with
      | c :: rest1 =>
        if c = ',' then
          (parseRecsTail fr fp fs rest1).map (fun p => (r :: p.1, p.2))
        else if c = ']' then some ([r], rest1)
        else none
      | [] => none

/-- `json.load` on the cache-file fragment: a whole input that is one
array of flat records, with nothing but whitespace after it. -/
def parseRecs (s : PyStr) : Option (List JRec) :=
  let f := s.length + 1
  match skipWs s with
  | c :: rest =>
    if c = '[' then
      match skipWs rest with
      | c1 :: rest1 =>
        if c1 = ']' then (if skipWs rest1 = [] then some [] else none)
        else
          match parseRecsTail f f f rest with
          | some (rs, rest2) => if skipWs rest2 = [] then some rs else none
          | none => none
      | [] => none
    else none
  | [] => none

/-- The cache file: `none` when absent, else its character content. -/
abbrev CacheFile := Option PyStr

/-- `save_articles_to_file` (the successful-write case): the file now
holds exactly the serialised record list. -/
def save_articles_to_file (articles : List JRec) (_fs : CacheFile) : CacheFile :=
  some (dumpRecs articles)

/-- `load_articles_from_file`: an absent file or one whose content fails
to load degrades to the empty list. -/
def load_articles_from_file (fs : CacheFile) : List JRec :=
  match fs with
  | none => []
  | some content => (parseRecs content).getD []

/-! ### Concrete fixtures used by witnesses and counterexamples -/

/-- Executable goodness test for a batch item: its timestamp either
fails to parse cleanly (`None`, no raise) or parses to a naive datetime.
Lists violating this hit the `TypeError`/`OverflowError` fallbacks. -/
def naiveParse (it : Item) : Bool :=
  match parse_to_tehran_time it.published_at with
  | .ok none => true
  | .ok (some t) => t.tz.isNone
  | .error _ => false

/-- A report record fixture. -/
def c2Report : Item :=
  { symbol := str "AAPL", date := str "2024-12-31", revenue := 5,
    reportedCurrency := str "USD", type := str "report" }

/-- A news item whose timestamp parses to an aware datetime. -/
def c3Aware : Item :=
  { url := str "a", title := str "ta",
    published_at := str "2024-01-01T00:00:00+0330", type := str "news" }

/-- A news item with an unparseable timestamp. -/
def c3Bad : Item :=
  { url := str "b", title := str "tb", published_at := str "not a date",
    type := str "news" }

/-- A news item with a clean naive timestamp. -/
def c3Good : Item :=
  { url := str "g", title := str "tg",
    published_at := str "2024-01-01T12:00:00Z", type := str "news" }

/-- A `datetime.utcnow()` sample: 2024-01-02 00:00:00. -/
def c3Now : Nat := usecOfFields 2024 1 2 0 0 0 0

/-- A selected news item for the delivery scenario. -/
def c4Item : Item :=
  { title := str "t", url := str "http://u", description := str "d",
    type := str "news" }

/-- A `sendMessage` network in which every POST is answered with
`{"ok": false}`. -/
def c4SendFail : ChatRef → PyStr → Except PyStr TgSendResp :=
  fun _ _ => .ok ⟨false, none⟩

/-- A `sendMessage` network in which every POST is answered with
`{"ok": true}`. -/
def c4SendOk : ChatRef → PyStr → Except PyStr TgSendResp :=
  fun _ _ => .ok ⟨true, none⟩

/-- A `getUpdates` response with no updates at all. -/
def c4Upd : Except PyStr TgUpdatesResp := .ok ⟨true, []⟩

/-- Two news items with distinct urls and ordered timestamps. -/
def c6Old : Item :=
  { url := str "1", title := str "t1", description := str "d1",
    published_at := str "2024-01-01T00:00:00Z", type := str "news" }

/-- The newer of the two C6 fixtures. -/
def c6New : Item :=
  { url := str "2", title := str "t2", description := str "d2",
    published_at := str "2024-01-02T00:00:00Z", type := str "news" }

/-- An aware-timestamp news item for the C6 counterexample. -/
def c6Aware : Item :=
  { url := str "x", title := str "tx",
    published_at := str "2024-05-01T00:00:00+0330", type := str "news" }

/-- An unparseable-timestamp news item for the C6 counterexample. -/
def c6Bad : Item :=
  { url := str "y", title := str "ty", published_at := str "???",
    type := str "news" }

/-- A 4097-character message. -/
def c7Msg : PyStr := List.replicate 4097 'a'

/-- A record fixture for the persistence round trip. -/
def c8Rec : JRec :=
  [(str "title", .pstr (str "he said \"hi\"")), (str "revenue", .pint (-12)),
   (str "fa", .pstr (str "سلام"))]

/-- Selection fixtures: two different items sharing one url, and one
with another url. -/
def c9A : Item := { url := str "u", title := str "A" }

/-- Same url as `c9A`, different record. -/
def c9B : Item := { url := str "u", title := str "B" }

/-- A url not present in the fixture selection. -/
def c9C : Item := { url := str "w", title := str "C" }

/-- Two news items with one shared url for the dedup witness. -/
def c1X : Item := { url := str "u1", title := str "first", type := str "news" }

/-- Same url as `c1X`, later occurrence. -/
def c1X' : Item := { url := str "u1", title := str "second", type := str "news" }

/-- A distinct-url item for the dedup witness. -/
def c1Y : Item := { url := str "u2", title := str "other", type := str "news" }

/-! ## Theorems -/

/-- C2.  On a batch in which every item is a financial report, the time
filter and the translation step are both the identity, whatever the
time-range, date-range, translation and clock arguments are. -/
theorem C2_report_identity (items : List Item)
    (h : ∀ it ∈ items, it.type = str "report")
    (tra : TimeRange) (sd ed : Option PyDate) (df : Bool) (now : Nat)
    (tr : PyStr → PyStr) (en : Bool) (num : Nat) :
    filter_articles_by_time items tra sd ed df now = .ok items ∧
    pre_process_articles items tr en num = items := by
  cases items with
  | nil => exact ⟨rfl, rfl⟩
  | cons hd tl =>
    have ht : hd.type = str "report" := h hd (List.mem_cons_self hd tl)
    constructor
    · rw [filter_articles_by_time.eq_def]
      rw [show (hd :: tl).isEmpty = false from rfl]
      rw [show headType (hd :: tl) = hd.type from rfl, ht]
      simp
    · rw [pre_process_articles.eq_def]
      rw [show (hd :: tl).isEmpty = false from rfl]
      rw [show headType (hd :: tl) = hd.type from rfl, ht]
      simp

/-- C2 witness: a singleton report batch goes through both stages
unchanged. -/
theorem C2_report_identity_witness :
    filter_articles_by_time [c2Report] (.hoursUs 3600000000) none none false c3Now
      = .ok [c2Report] ∧
    pre_process_articles [c2Report] id true 5 = [c2Report] := by
  have h := C2_report_identity [c2Report]
    (by intro it hit; simp only [List.mem_singleton] at hit; subst hit; rfl)
    (.hoursUs 3600000000) none none false c3Now id true 5
  exact h

/-- C5 (amended).  Each key-checked adapter, given an empty or
placeholder key, returns the empty list paired with its adapter-specific
invalid-key message, and makes no HTTP request. -/
theorem C5_invalid_key_short_circuit :
    (∀ (q : PyStr) (k : PyStr) (net : Except PyStr GNewsResp),
      k = [] ∨ k = str "YOUR_GNEWS_API_KEY" →
      fetch_gnews k q net =
        (([], some (str "Invalid GNews API key. Please set a valid API key in Render environment variables.")), false)) ∧
    (∀ (q : PyStr) (k : PyStr) (net : Except PyStr WNResp),
      k = [] ∨ k = str "YOUR_WORLDNEWS_API_KEY" →
      fetch_worldnews k q net =
        (([], some (str "Invalid World News API key. Please set a valid API key in Render environment variables.")), false)) ∧
    (∀ (sym : PyStr) (k : PyStr) (fd td : Option PyStr) (net : Except PyStr FmpResp),
      k = [] ∨ k = str "YOUR_FMP_API_KEY" →
      fetch_financial_report k sym fd td net =
        (([], some (str "Invalid Financial Modeling Prep API key. Please set a valid API key in Render environment variables.")), false)) ∧
    (∀ (q : PyStr) (k : PyStr) (net : Except PyStr CurResp),
      k = [] ∨ k = str "YOUR_CURRENTSAPI_API_KEY" →
      fetch_currentsapi_news k q net =
        (([], some (str "Invalid CurrentsAPI key. Please set a valid API key in Render environment variables.")), false)) := by
  refine ⟨?_, ?_, ?_, ?_⟩
  · rintro q k net (rfl | rfl) <;> rfl
  · rintro q k net (rfl | rfl) <;> rfl
  · rintro sym k fd td net (rfl | rfl) <;> rfl
  · rintro q k net (rfl | rfl) <;> rfl

/-- C5 counterexample: with the placeholder key the GNews adapter does
return an empty list with no HTTP call, but the error string is its own
message, not the literal `"Invalid API key"` the claim names. -/
theorem C5_counterexample :
    (fetch_gnews (str "YOUR_GNEWS_API_KEY") (str "Iran") (.ok ⟨none, []⟩)).1.1 = [] ∧
    (fetch_gnews (str "YOUR_GNEWS_API_KEY") (str "Iran") (.ok ⟨none, []⟩)).2 = false ∧
    (fetch_gnews (str "YOUR_GNEWS_API_KEY") (str "Iran") (.ok ⟨none, []⟩)).1.2 ≠
      some (str "Invalid API key") := by
  exact ⟨rfl, rfl, by decide⟩

/-- C5 witness: the amended statement applied to the CurrentsAPI adapter
with an empty key. -/
theorem C5_invalid_key_short_circuit_witness :
    fetch_currentsapi_news [] (str "Iran") (.ok ⟨none, none, []⟩) =
      (([], some (str "Invalid CurrentsAPI key. Please set a valid API key in Render environment variables.")), false) :=
  C5_invalid_key_short_circuit.2.2.2 (str "Iran") [] (.ok ⟨none, none, []⟩) (Or.inl rfl)

/-- C7.  The text `send_telegram_message` POSTs is at most 4096
characters: short messages go out unchanged, longer ones as their first
4093 characters plus `"..."`; consequently sending the posted text again
would POST the same text. -/
theorem C7_telegram_truncation (m : PyStr) :
    (telegramPostedText m).length ≤ 4096 ∧
    (m.length ≤ 4096 → telegramPostedText m = m) ∧
    (4096 < m.length → telegramPostedText m = m.take 4093 ++ str "...") ∧
    (∀ chat net, send_telegram_message chat m net =
      send_telegram_message chat (telegramPostedText m) net) := by
  have hlen : (telegramPostedText m).length ≤ 4096 := by
    unfold telegramPostedText
    split
    · simp only [List.length_append, List.length_take]
      have : (str "...").length = 3 := rfl
      omega
    · omega
  refine ⟨hlen, ?_, ?_, ?_⟩
  · intro h
    unfold telegramPostedText
    rw [if_neg (by omega)]
  · intro h
    unfold telegramPostedText
    rw [if_pos (by omega)]
  · intro chat net
    unfold send_telegram_message
    have : telegramPostedText (telegramPostedText m) = telegramPostedText m := by
      conv_lhs => rw [telegramPostedText]
      rw [if_neg (by omega)]
    rw [this]

/-- C7 witness: a 4097-character message is truncated to 4093 characters
plus the ellipsis. -/
theorem C7_telegram_truncation_witness :
    4096 < c7Msg.length ∧
    telegramPostedText c7Msg = c7Msg.take 4093 ++ str "..." := by
  have h : 4096 < c7Msg.length := by
    show 4096 < (List.replicate 4097 'a').length
    rw [List.length_replicate]
    omega
  exact ⟨h, (C7_telegram_truncation c7Msg).2.2.1 h⟩

/-- C10 (amended).  `parse_to_tehran_time` never raises `TypeError`;
it returns `None` on the empty string and on any string matching no
format; on a match whose value shifted by 3 h 30 min stays within
`datetime.max` it returns exactly the parsed value plus that offset; but
when the shift leaves the representable range it raises
`OverflowError`. -/
theorem C10_parse_characterisation (s : PyStr) :
    (parse_to_tehran_time s ≠ .error .typeError) ∧
    (s = [] → parse_to_tehran_time s = .ok none) ∧
    (strptimeAny s = none → parse_to_tehran_time s = .ok none) ∧
    (∀ dt, strptimeAny s = some dt → dt.usec + tehranDeltaUsec ≤ maxUsec →
      parse_to_tehran_time s = .ok (some ⟨dt.usec + tehranDeltaUsec, dt.tz⟩)) ∧
    (∀ dt, strptimeAny s = some dt → maxUsec < dt.usec + tehranDeltaUsec →
      parse_to_tehran_time s = .error .overflowError) := by
  by_cases hs : s = []
  · subst hs
    have hn : strptimeAny [] = none := by decide
    have hnil : parse_to_tehran_time [] = .ok none := rfl
    refine ⟨by rw [hnil]; exact fun hcontra => Except.noConfusion hcontra,
      fun _ => rfl, fun _ => rfl, ?_, ?_⟩
    · intro dt hdt
      rw [hn] at hdt
      exact Option.noConfusion hdt
    · intro dt hdt
      rw [hn] at hdt
      exact Option.noConfusion hdt
  · have hm : parse_to_tehran_time s =
        match strptimeAny s with
        | none => .ok none
        | some dt =>
          if dt.usec + tehranDeltaUsec > maxUsec then .error .overflowError
          else .ok (some ⟨dt.usec + tehranDeltaUsec, dt.tz⟩) := by
      rw [parse_to_tehran_time.eq_def, if_neg hs]
    rcases hoc : strptimeAny s with _ | dt0
    · have hval : parse_to_tehran_time s = .ok none := by rw [hm, hoc]
      refine ⟨by rw [hval]; exact fun hcontra => Except.noConfusion hcontra,
        fun he => absurd he hs, fun _ => hval, ?_, ?_⟩
      · intro dt hdt
        exact Option.noConfusion hdt
      · intro dt hdt
        exact Option.noConfusion hdt
    · have hval : parse_to_tehran_time s =
          if dt0.usec + tehranDeltaUsec > maxUsec then .error .overflowError
          else .ok (some ⟨dt0.usec + tehranDeltaUsec, dt0.tz⟩) := by rw [hm, hoc]
      refine ⟨?_, fun he => absurd he hs, fun hn => ?_, ?_, ?_⟩
      · rw [hval]
        by_cases hov : dt0.usec + tehranDeltaUsec > maxUsec
        · rw [if_pos hov]
          intro hcontra
          exact PyErr.noConfusion (Except.error.inj hcontra)
        · rw [if_neg hov]
          exact fun hcontra => Except.noConfusion hcontra
      · exact Option.noConfusion hn
      · intro dt hdt hle
        cases Option.some.inj hdt
        rw [hval, if_neg (by omega)]
      · intro dt hdt hlt
        cases Option.some.inj hdt
        rw [hval, if_pos (by omega)]

/-- C10 counterexample: `"9999-12-31T23:00:00"` parses against the
third format, but adding the 3 h 30 min offset leaves `datetime.max`,
so the function raises `OverflowError` instead of returning a value —
it is not total. -/
theorem C10_counterexample :
    strptimeAny (str "9999-12-31T23:00:00") =
      some ⟨usecOfFields 9999 12 31 23 0 0 0, none⟩ ∧
    parse_to_tehran_time (str "9999-12-31T23:00:00") = .error .overflowError := by
  exact ⟨by decide, by rfl⟩

/-- C10 witness: the amended statement at `"2024-01-01"`, a date-only
string that parses and shifts without overflow. -/
theorem C10_parse_characterisation_witness :
    strptimeAny (str "2024-01-01") = some ⟨63839664000000000, none⟩ ∧
    parse_to_tehran_time (str "2024-01-01") =
      .ok (some ⟨63839664000000000 + tehranDeltaUsec, none⟩) := by
  have h : strptimeAny (str "2024-01-01") = some ⟨63839664000000000, none⟩ := by decide
  exact ⟨h, (C10_parse_characterisation (str "2024-01-01")).2.2.2.1
    ⟨63839664000000000, none⟩ h (by decide)⟩

/-- C9.  Selection membership is decided by `url` alone: adding an item
whose url is already selected is the identity, adding twice equals
adding once (and yields exactly one entry with that url), removing an
absent url is the identity, and removal depends only on the url. -/
theorem C9_selection_by_url :
    (∀ (sel : List Item) (it : Item), (∃ a ∈ sel, a.url = it.url) →
      selectionAdd sel it = sel) ∧
    (∀ (sel : List Item) (it : Item),
      selectionAdd (selectionAdd sel it) it = selectionAdd sel it) ∧
    (∀ (sel : List Item) (it : Item),
      (selectionAdd sel it).countP (fun a => decide (a.url = it.url)) =
        max (sel.countP (fun a => decide (a.url = it.url))) 1) ∧
    (∀ (sel : List Item) (it : Item), (¬ ∃ a ∈ sel, a.url = it.url) →
      selectionRemove sel it = sel) ∧
    (∀ (sel : List Item) (it it' : Item), it.url = it'.url →
      selectionRemove sel it = selectionRemove sel it') := by
  have hany : ∀ (sel : List Item) (it : Item),
      sel.any (fun a => decide (a.url = it.url)) = true ↔ ∃ a ∈ sel, a.url = it.url := by
    intro sel it
    simp [List.any_eq_true]
  refine ⟨?_, ?_, ?_, ?_, ?_⟩
  · intro sel it h
    simp only [selectionAdd, if_pos ((hany sel it).mpr h)]
  · intro sel it
    by_cases h : sel.any (fun a => decide (a.url = it.url)) = true
    · simp only [selectionAdd, if_pos h]
    · simp only [selectionAdd, if_neg h]
      rw [if_pos]
      rw [List.any_append]
      simp
  · intro sel it
    by_cases h : sel.any (fun a => decide (a.url = it.url)) = true
    · simp only [selectionAdd, if_pos h]
      have : 0 < sel.countP (fun a => decide (a.url = it.url)) := by
        rw [List.countP_pos_iff]
        obtain ⟨a, ha, hu⟩ := (hany sel it).mp h
        exact ⟨a, ha, by simpa using hu⟩
      omega
    · simp only [selectionAdd, if_neg h]
      have h0 : sel.countP (fun a => decide (a.url = it.url)) = 0 := by
        rw [List.countP_eq_zero]
        intro a ha hcontra
        exact h ((hany sel it).mpr ⟨a, ha, by simpa using hcontra⟩)
      rw [List.countP_append, h0]
      simp [List.countP_cons]
  · intro sel it h
    have : sel.any (fun a => decide (a.url = it.url)) ≠ true := fun hc => h ((hany sel it).mp hc)
    simp only [selectionRemove, if_neg this]
  · intro sel it it' h
    simp only [selectionRemove, h]

/-- C9 witness: a record with the same url but different fields is not
re-added; removing an absent url is a no-op; a double add equals a
single add. -/
theorem C9_selection_by_url_witness :
    selectionAdd [c9A] c9B = [c9A] ∧
    selectionRemove [c9A] c9C = [c9A] ∧
    selectionAdd (selectionAdd [] c9A) c9A = selectionAdd [] c9A := by
  refine ⟨C9_selection_by_url.1 [c9A] c9B ?_, C9_selection_by_url.2.2.2.1 [c9A] c9C ?_,
    C9_selection_by_url.2.1 [] c9A⟩
  · exact ⟨c9A, by simp, by decide⟩
  · rintro ⟨a, ha, hu⟩
    simp only [List.mem_singleton] at ha
    subst ha
    exact absurd hu (by decide)

/-! ### Deduplication lemmas (for C1) -/

/-- The dedup loop output is a subsequence of its input. -/
theorem dedupByUrl_sublist : ∀ (l : List Item) (seen : List PyStr),
    (dedupByUrl l seen).Sublist l := by
  intro l
  induction l with
  | nil => intro seen; simp [dedupByUrl]
  | cons it rest ih =>
    intro seen
    rw [dedupByUrl]
    split
    · exact (ih seen).cons it
    · exact (ih (it.url :: seen)).cons₂ it

/-- No output item carries a url recorded as seen. -/
theorem dedupByUrl_countP_seen : ∀ (l : List Item) (seen : List PyStr) (u : PyStr),
    u ∈ seen → ((dedupByUrl l seen).countP (fun a => decide (a.url = u))) = 0 := by
  intro l
  induction l with
  | nil => intro seen u _; simp [dedupByUrl]
  | cons it rest ih =>
    intro seen u hu
    rw [dedupByUrl]
    split
    · exact ih seen u hu
    · rename_i hnotmem
      rw [List.countP_cons]
      have hne : ¬ (it.url = u) := fun hcontra => hnotmem (hcontra ▸ hu)
      have h1 := ih (it.url :: seen) u (List.mem_cons_of_mem _ hu)
      simp [hne, h1]

/-- The dedup loop keeps at most one item per url. -/
theorem dedupByUrl_countP_le_one : ∀ (l : List Item) (seen : List PyStr) (u : PyStr),
    ((dedupByUrl l seen).countP (fun a => decide (a.url = u))) ≤ 1 := by
  intro l
  induction l with
  | nil => intro seen u; simp [dedupByUrl]
  | cons it rest ih =>
    intro seen u
    rw [dedupByUrl]
    split
    · exact ih seen u
    · rw [List.countP_cons]
      by_cases hiu : it.url = u
      · subst hiu
        have h0 := dedupByUrl_countP_seen rest (it.url :: seen) it.url
          (List.mem_cons_self _ _)
        simp [h0]
      · have h1 := ih (it.url :: seen) u
        simp only [hiu, decide_False, if_false]
        simpa using h1

/-- Every kept item is the input's first occurrence of its url, and its
url was not previously seen. -/
theorem dedupByUrl_first : ∀ (l : List Item) (seen : List PyStr) (a : Item),
    a ∈ dedupByUrl l seen →
    a.url ∉ seen ∧ (l.filter (fun b => decide (b.url = a.url))).head? = some a := by
  intro l
  induction l with
  | nil => intro seen a h; rw [dedupByUrl] at h; exact absurd h (List.not_mem_nil a)
  | cons it rest ih =>
    intro seen a ha
    rw [dedupByUrl] at ha
    split at ha
    · rename_i hmem
      obtain ⟨hnot, hhead⟩ := ih seen a ha
      have hne : ¬ (it.url = a.url) := fun hcontra => hnot (hcontra ▸ hmem)
      refine ⟨hnot, ?_⟩
      rw [List.filter_cons]
      simp only [hne, decide_False, if_false]
      exact hhead
    · rename_i hnotmem
      rcases List.mem_cons.mp ha with rfl | hrest
      · refine ⟨hnotmem, ?_⟩
        rw [List.filter_cons]
        simp
      · obtain ⟨hnot, hhead⟩ := ih (it.url :: seen) a hrest
        have hne : ¬ (it.url = a.url) := fun hcontra =>
          hnot (by rw [← hcontra]; exact List.mem_cons_self _ _)
        refine ⟨fun hcontra => hnot (List.mem_cons_of_mem _ hcontra), ?_⟩
        rw [List.filter_cons]
        simp only [hne, decide_False, if_false]
        exact hhead

/-- Every input url also occurs among the kept items, unless already
seen. -/
theorem dedupByUrl_covers : ∀ (l : List Item) (seen : List PyStr) (a : Item),
    a ∈ l → a.url ∉ seen → ∃ b ∈ dedupByUrl l seen, b.url = a.url := by
  intro l
  induction l with
  | nil => intro seen a h _; exact absurd h (List.not_mem_nil a)
  | cons it rest ih =>
    intro seen a ha hnot
    rw [dedupByUrl]
    split
    · rename_i hmem
      rcases List.mem_cons.mp ha with rfl | hrest
      · exact absurd hmem hnot
      · exact ih seen a hrest hnot
    · rename_i hnotmem
      by_cases hau : a.url = it.url
      · exact ⟨it, List.mem_cons_self _ _, hau.symm⟩
      · rcases List.mem_cons.mp ha with rfl | hrest
        · exact absurd rfl hau
        · obtain ⟨b, hb, hbu⟩ := ih (it.url :: seen) a hrest
            (by
              intro hcontra
              rcases List.mem_cons.mp hcontra with hc | hc
              · exact hau hc
              · exact hnot hc)
          exact ⟨b, List.mem_cons_of_mem _ hb, hbu⟩

/-- C1.  For a non-report API, `fetch_news` returns the adapter batch
deduplicated by url and truncated: the result is the first-occurrence
dedup of the batch cut to `max_records`, has at most one item per url,
is a subsequence of the batch (relative order preserved), each kept item
is the batch's first occurrence of its url, and — whenever the batch
itself is within `max_records`, as every adapter requests — every url of
the batch survives. -/
theorem C1_fetch_news_dedup (api : PyStr) (items : List Item) (err : Option PyStr)
    (max_records : Nat) (hapi : api ∈ apiNames)
    (hnews : api ≠ str "Financial Report (FMP)") :
    fetch_news api (items, err) max_records = (dedupByUrl items []).take max_records ∧
    (fetch_news api (items, err) max_records).length ≤ max_records ∧
    (∀ u, ((fetch_news api (items, err) max_records).countP
      (fun a => decide (a.url = u))) ≤ 1) ∧
    (fetch_news api (items, err) max_records).Sublist items ∧
    (∀ a ∈ fetch_news api (items, err) max_records,
      (items.filter (fun b => decide (b.url = a.url))).head? = some a) ∧
    (items.length ≤ max_records → ∀ a ∈ items,
      ∃ b ∈ fetch_news api (items, err) max_records, b.url = a.url) := by
  have hdef : fetch_news api (items, err) max_records =
      (dedupByUrl items []).take max_records := by
    unfold fetch_news
    rw [if_pos hapi, if_pos hnews]
  have htake : ((dedupByUrl items []).take max_records).Sublist (dedupByUrl items []) :=
    List.take_sublist max_records _
  refine ⟨hdef, ?_, ?_, ?_, ?_, ?_⟩
  · rw [hdef]
    exact (List.length_take _ _).trans_le (min_le_left _ _)
  · intro u
    rw [hdef]
    exact (htake.countP_le _).trans (dedupByUrl_countP_le_one items [] u)
  · rw [hdef]
    exact htake.trans (dedupByUrl_sublist items [])
  · intro a ha
    rw [hdef] at ha
    exact (dedupByUrl_first items [] a (htake.subset ha)).2
  · intro hlen a ha
    rw [hdef]
    have hfull : (dedupByUrl items []).take max_records = dedupByUrl items [] :=
      List.take_of_length_le ((dedupByUrl_sublist items []).length_le.trans hlen)
    rw [hfull]
    exact dedupByUrl_covers items [] a ha (List.not_mem_nil _)

/-- C1 witness: a three-item GNews batch with one repeated url keeps the
first occurrence of each url, in order. -/
theorem C1_fetch_news_dedup_witness :
    fetch_news (str "GNews") ([c1X, c1X', c1Y], none) 5 = [c1X, c1Y] ∧
    (fetch_news (str "GNews") ([c1X, c1X', c1Y], none) 5).length ≤ 5 ∧
    (fetch_news (str "GNews") ([c1X, c1X', c1Y], none) 5).Sublist [c1X, c1X', c1Y] := by
  have h := C1_fetch_news_dedup (str "GNews") [c1X, c1X', c1Y] none 5
    (by decide) (by decide)
  exact ⟨by decide, h.2.1, h.2.2.2.1⟩

/-! ### Filter-loop lemmas (for C3) -/

/-- When no keep test raises, the filter loop returns the sublist of
items the test accepts. -/
theorem filterLoop_ok (keep : Item → Except PyErr Bool) :
    ∀ (l : List Item), (∀ y ∈ l, ∃ b, keep y = .ok b) →
    ∃ out, filterLoop keep l = .ok out ∧
      ∀ z, z ∈ out ↔ z ∈ l ∧ keep z = .ok true := by
  intro l
  induction l with
  | nil =>
    intro _
    exact ⟨[], rfl, by simp⟩
  | cons it rest ih =>
    intro h
    obtain ⟨b, hb⟩ := h it (List.mem_cons_self _ _)
    obtain ⟨out, hout, hiff⟩ := ih (fun y hy => h y (List.mem_cons_of_mem _ hy))
    refine ⟨if b then it :: out else out, ?_, ?_⟩
    · rw [filterLoop, hb, hout]
      rfl
    · intro z
      cases b with
      | false =>
        simp only [if_false, Bool.false_eq_true]
        rw [hiff z]
        constructor
        · rintro ⟨hz, hk⟩
          exact ⟨List.mem_cons_of_mem _ hz, hk⟩
        · rintro ⟨hz, hk⟩
          rcases List.mem_cons.mp hz with rfl | hz'
          · rw [hb] at hk
            exact absurd (Except.ok.inj hk) (by simp)
          · exact ⟨hz', hk⟩
      | true =>
        simp only [if_true]
        rw [List.mem_cons, hiff z]
        constructor
        · rintro (rfl | ⟨hz, hk⟩)
          · exact ⟨List.mem_cons_self _ _, hb⟩
          · exact ⟨List.mem_cons_of_mem _ hz, hk⟩
        · rintro ⟨hz, hk⟩
          rcases List.mem_cons.mp hz with rfl | hz'
          · exact Or.inl rfl
          · exact Or.inr ⟨hz', hk⟩

/-- An unparseable timestamp is rejected by the relative-window test. -/
theorem keepRecent_unparseable (c : PyDateTime) (it : Item)
    (hp : parse_to_tehran_time it.published_at = .ok none) :
    keepRecent c it = .ok false := by
  unfold keepRecent
  rw [hp]
  rfl

/-- An unparseable timestamp is rejected by the explicit-range test. -/
theorem keepInRange_unparseable (s e : PyDateTime) (it : Item)
    (hp : parse_to_tehran_time it.published_at = .ok none) :
    keepInRange s e it = .ok false := by
  unfold keepInRange
  rw [hp]
  rfl

/-- Against a naive cutoff, the relative-window test cannot raise on an
item whose timestamp is cleanly naive or unparseable. -/
theorem keepRecent_ok (c : PyDateTime) (hc : c.tz = none) (it : Item)
    (hn : naiveParse it = true) : ∃ b, keepRecent c it = .ok b := by
  unfold naiveParse at hn
  cases hp : parse_to_tehran_time it.published_at with
  | error e =>
    rw [hp] at hn
    exact absurd hn (by simp)
  | ok o =>
    cases o with
    | none => exact ⟨false, keepRecent_unparseable c it hp⟩
    | some t =>
      rw [hp] at hn
      have ht : t.tz = none := Option.isNone_iff_eq_none.mp hn
      refine ⟨decide (c.usec ≤ t.usec), ?_⟩
      unfold keepRecent
      rw [hp]
      show pyLeDT c t = _
      unfold pyLeDT
      rw [hc, ht]

/-- Against naive endpoints, the explicit-range test cannot raise on an
item whose timestamp is cleanly naive or unparseable. -/
theorem keepInRange_ok (s e : PyDateTime) (hs : s.tz = none) (he : e.tz = none)
    (it : Item) (hn : naiveParse it = true) : ∃ b, keepInRange s e it = .ok b := by
  unfold naiveParse at hn
  cases hp : parse_to_tehran_time it.published_at with
  | error err =>
    rw [hp] at hn
    exact absurd hn (by simp)
  | ok o =>
    cases o with
    | none => exact ⟨false, keepInRange_unparseable s e it hp⟩
    | some t =>
      rw [hp] at hn
      have ht : t.tz = none := Option.isNone_iff_eq_none.mp hn
      have h1 : pyLeDT s t = .ok (decide (s.usec ≤ t.usec)) := by
        unfold pyLeDT
        rw [hs, ht]
      have h2 : pyLeDT t e = .ok (decide (t.usec ≤ e.usec)) := by
        unfold pyLeDT
        rw [ht, he]
      refine ⟨if decide (s.usec ≤ t.usec) then decide (t.usec ≤ e.usec) else false, ?_⟩
      unfold keepInRange
      rw [hp]
      show (do
        let b1 ← pyLeDT s t
        if b1 then pyLeDT t e else pure false : Except PyErr Bool) = _
      rw [h1]
      show (if decide (s.usec ≤ t.usec) then pyLeDT t e else pure false) = _
      by_cases hb : s.usec ≤ t.usec
      · simp only [hb, decide_True, if_true]
        rw [h2]
      · simp only [hb, decide_False, if_false]
        rfl

/-- C3 (amended).  In a news batch every item of which either parses to
a naive datetime without overflow or cleanly fails to parse, an
unparseable item is excluded by the relative-window mode (for any
in-range cutoff) and by the explicit-range mode (for any representable
date range); and with `disable_filter` the whole input — unparseable
items included — is returned unchanged, unconditionally. -/
theorem C3_unparseable_excluded :
    (∀ (items : List Item) (x : Item) (h : Int) (sd ed : Option PyDate) (now : Nat),
      x ∈ items →
      parse_to_tehran_time x.published_at = .ok none →
      ¬ (headType items = str "report") →
      (∀ y ∈ items, naiveParse y = true) →
      now + tehranDeltaUsec ≤ maxUsec →
      0 ≤ ((now + tehranDeltaUsec : Nat) : Int) - h →
      ((now + tehranDeltaUsec : Nat) : Int) - h ≤ (maxUsec : Int) →
      ∀ out, filter_articles_by_time items (.hoursUs h) sd ed false now = .ok out →
        x ∉ out) ∧
    (∀ (items : List Item) (x : Item) (ds de : Nat) (now : Nat),
      x ∈ items →
      parse_to_tehran_time x.published_at = .ok none →
      ¬ (headType items = str "report") →
      (∀ y ∈ items, naiveParse y = true) →
      now + tehranDeltaUsec ≤ maxUsec →
      ds * 86400000000 + tehranDeltaUsec ≤ maxUsec →
      de * 86400000000 + 86399999999 + tehranDeltaUsec ≤ maxUsec →
      ∀ out, filter_articles_by_time items .inf (some ds) (some de) false now = .ok out →
        x ∉ out) ∧
    (∀ (items : List Item) (tra : TimeRange) (sd ed : Option PyDate) (now : Nat),
      filter_articles_by_time items tra sd ed true now = .ok items) := by
  refine ⟨?_, ?_, ?_⟩
  · intro items x h sd ed now hx hp hrep hnall hnow hge hle out hfil
    have hne : items.isEmpty = false := by
      cases items with
      | nil => exact absurd hx (List.not_mem_nil x)
      | cons a l => rfl
    have hbody : filterBody items (.hoursUs h) sd ed (now + tehranDeltaUsec) =
        filterLoop (keepRecent ⟨(((now + tehranDeltaUsec : Nat) : Int) - h).toNat, none⟩)
          items := by
      show (if ((now + tehranDeltaUsec : Nat) : Int) - h < 0 ∨
            ((now + tehranDeltaUsec : Nat) : Int) - h > (maxUsec : Int) then
          (.error .overflowError : Except PyErr (List Item))
        else
          filterLoop (keepRecent ⟨(((now + tehranDeltaUsec : Nat) : Int) - h).toNat, none⟩)
            items) = _
      rw [if_neg (by omega)]
    obtain ⟨outL, hout, hiff⟩ :=
      filterLoop_ok (keepRecent ⟨(((now + tehranDeltaUsec : Nat) : Int) - h).toNat, none⟩)
        items (fun y hy => keepRecent_ok _ rfl y (hnall y hy))
    have hfil2 : filter_articles_by_time items (.hoursUs h) sd ed false now = .ok outL := by
      unfold filter_articles_by_time
      rw [if_neg (by rw [hne]; exact Bool.false_ne_true), if_neg hrep,
        if_neg Bool.false_ne_true, if_neg (by omega), hbody, hout]
    rw [hfil2] at hfil
    cases Except.ok.inj hfil
    intro hxout
    have hk := ((hiff x).mp hxout).2
    rw [keepRecent_unparseable _ x hp] at hk
    exact absurd (Except.ok.inj hk) (by simp)
  · intro items x ds de now hx hp hrep hnall hnow hs he out hfil
    have hne : items.isEmpty = false := by
      cases items with
      | nil => exact absurd hx (List.not_mem_nil x)
      | cons a l => rfl
    have hbody : filterBody items .inf (some ds) (some de) (now + tehranDeltaUsec) =
        filterLoop (keepInRange ⟨ds * 86400000000 + tehranDeltaUsec, none⟩
          ⟨de * 86400000000 + 86399999999 + tehranDeltaUsec, none⟩) items := by
      show (if ds * 86400000000 + tehranDeltaUsec > maxUsec ∨
            de * 86400000000 + 86399999999 + tehranDeltaUsec > maxUsec then
          (.error .overflowError : Except PyErr (List Item))
        else
          filterLoop (keepInRange ⟨ds * 86400000000 + tehranDeltaUsec, none⟩
            ⟨de * 86400000000 + 86399999999 + tehranDeltaUsec, none⟩) items) = _
      rw [if_neg (by omega)]
    obtain ⟨outL, hout, hiff⟩ :=
      filterLoop_ok (keepInRange ⟨ds * 86400000000 + tehranDeltaUsec, none⟩
        ⟨de * 86400000000 + 86399999999 + tehranDeltaUsec, none⟩) items
        (fun y hy => keepInRange_ok _ _ rfl rfl y (hnall y hy))
    have hfil2 : filter_articles_by_time items .inf (some ds) (some de) false now =
        .ok outL := by
      unfold filter_articles_by_time
      rw [if_neg (by rw [hne]; exact Bool.false_ne_true), if_neg hrep,
        if_neg Bool.false_ne_true, if_neg (by omega), hbody, hout]
    rw [hfil2] at hfil
    cases Except.ok.inj hfil
    intro hxout
    have hk := ((hiff x).mp hxout).2
    rw [keepInRange_unparseable _ _ x hp] at hk
    exact absurd (Except.ok.inj hk) (by simp)
  · intro items tra sd ed now
    cases items with
    | nil => rfl
    | cons a l =>
      unfold filter_articles_by_time
      rw [if_neg (by rw [show (a :: l).isEmpty = false from rfl]; exact Bool.false_ne_true)]
      by_cases hrep : headType (a :: l) = str "report"
      · rw [if_pos hrep]
      · rw [if_neg hrep, if_pos rfl]

/-- C3 counterexample: in a batch that also contains an item with an
aware-offset timestamp (`+0330`), the naive/aware comparison raises
`TypeError`, the handler returns the whole batch, and the unparseable
item appears in the output of both filter modes. -/
theorem C3_counterexample :
    parse_to_tehran_time c3Bad.published_at = .ok none ∧
    filter_articles_by_time [c3Aware, c3Bad] (.hoursUs 3600000000) none none false c3Now =
      .ok [c3Aware, c3Bad] ∧
    filter_articles_by_time [c3Aware, c3Bad] .inf (some (daysFromCivil 2024 1 1))
      (some (daysFromCivil 2024 1 3)) false c3Now = .ok [c3Aware, c3Bad] ∧
    c3Bad ∈ [c3Aware, c3Bad] := by
  exact ⟨rfl, rfl, rfl, by decide⟩

/-- C3 witness: the amended statement at a concrete two-item batch —
the unparseable item is dropped in both modes and kept under
`disable_filter`. -/
theorem C3_unparseable_excluded_witness :
    filter_articles_by_time [c3Good, c3Bad] (.hoursUs 86400000000) none none false c3Now =
      .ok [c3Good] ∧
    c3Bad ∉ ([c3Good] : List Item) ∧
    filter_articles_by_time [c3Good, c3Bad] .inf (some (daysFromCivil 2024 1 1))
      (some (daysFromCivil 2024 1 3)) false c3Now = .ok [c3Good] ∧
    filter_articles_by_time [c3Good, c3Bad] (.hoursUs 86400000000) none none true c3Now =
      .ok [c3Good, c3Bad] := by
  refine ⟨rfl, ?_, rfl, ?_⟩
  · exact C3_unparseable_excluded.1 [c3Good, c3Bad] c3Bad 86400000000 none none c3Now
      (by decide) rfl (by decide) (by decide) (by decide) (by decide) (by decide)
      [c3Good] rfl
  · exact C3_unparseable_excluded.2.2 [c3Good, c3Bad] (.hoursUs 86400000000) none none c3Now

/-- C4 (code bug).  With the selection non-empty, `"@nobody"` neither
cached nor present in `getUpdates`, resolution does return
`(None, error)` — but the send block, after setting `fail_count` to the
selection size, still runs the loop against the raw username string: one
`sendMessage` POST is attempted for the single selected item, and
`fail_count` ends at 2 (or, with a delivering network, `success_count`
is 1 while `fail_count` still claims every item failed). -/
theorem C4_resolution_failure_still_attempts_delivery :
    (get_chat_id_from_username (str "@nobody") [] c4Upd).1 =
      (none, some (str "Chat ID not found for username @nobody. Make sure the user/group has interacted with the bot.")) ∧
    ([c4Item] : List Item).length = 1 ∧
    (send_selected [c4Item] (str "@nobody") (str "5013104607") [] c4Upd c4SendFail
      id id).fail_count = 2 ∧
    (send_selected [c4Item] (str "@nobody") (str "5013104607") [] c4Upd c4SendFail
      id id).attempts.length = 1 ∧
    (send_selected [c4Item] (str "@nobody") (str "5013104607") [] c4Upd c4SendOk
      id id).success_count = 1 ∧
    (send_selected [c4Item] (str "@nobody") (str "5013104607") [] c4Upd c4SendOk
      id id).fail_count = 1 := by
  exact ⟨rfl, rfl, rfl, rfl, rfl, rfl⟩

/-! ### Sort and translation lemmas (for C6) -/

/-- `mapM` over the keys succeeds when every key computation does, and
the results align elementwise. -/
theorem mapM_pyKeyOf_ok : ∀ (l : List Item), (∀ y ∈ l, ∃ k, pyKeyOf y = .ok k) →
    ∃ ks, l.mapM pyKeyOf = .ok ks ∧
      List.Forall₂ (fun a k => pyKeyOf a = .ok k) l ks := by
  intro l
  induction l with
  | nil => exact fun _ => ⟨[], rfl, List.Forall₂.nil⟩
  | cons it rest ih =>
    intro h
    obtain ⟨k, hk⟩ := h it (List.mem_cons_self _ _)
    obtain ⟨ks, hks, hall⟩ := ih (fun y hy => h y (List.mem_cons_of_mem _ hy))
    refine ⟨k :: ks, ?_, List.Forall₂.cons hk hall⟩
    rw [List.mapM_cons, hk, hks]
    rfl

/-- On a cleanly-naive item the key computation succeeds with a naive
key. -/
theorem pyKeyOf_ok_of_naive (it : Item) (hn : naiveParse it = true) :
    ∃ k, pyKeyOf it = .ok k ∧ k.tz = none := by
  unfold naiveParse at hn
  cases hp : parse_to_tehran_time it.published_at with
  | error e =>
    rw [hp] at hn
    exact absurd hn (by simp)
  | ok o =>
    cases o with
    | none => exact ⟨⟨0, none⟩, by unfold pyKeyOf; rw [hp], rfl⟩
    | some t =>
      rw [hp] at hn
      exact ⟨t, by unfold pyKeyOf; rw [hp], Option.isNone_iff_eq_none.mp hn⟩

/-- Elementwise key alignment gives the key value of each zip pair. -/
theorem forall₂_zip_keys : ∀ (l : List Item) (ks : List PyDateTime),
    List.Forall₂ (fun a k => pyKeyOf a = .ok k) l ks →
    ∀ p ∈ l.zip ks, pyKeyOf p.1 = .ok p.2 := by
  intro l ks h
  induction h with
  | nil => intro p hp; exact absurd hp (List.not_mem_nil p)
  | cons hak _ ih =>
    intro p hp
    rcases List.mem_cons.mp hp with rfl | hp'
    · exact hak
    · exact ih p hp'

/-- A successful key computation determines the integer sort key. -/
theorem itemKeyVal_of_pyKeyOf (a : Item) (k : PyDateTime)
    (h : pyKeyOf a = .ok k) : itemKeyVal a = cmpVal k := by
  unfold pyKeyOf at h
  unfold itemKeyVal
  cases hp : parse_to_tehran_time a.published_at with
  | error e =>
    rw [hp] at h
    exact absurd h (by simp)
  | ok o =>
    cases o with
    | none =>
      rw [hp] at h
      cases Except.ok.inj h
      rfl
    | some t =>
      rw [hp] at h
      cases Except.ok.inj h
      rfl

/-- The translation step leaves the sort key unchanged. -/
theorem translItem_key (tr : PyStr → PyStr) (en : Bool) (num i : Nat) (it : Item) :
    itemKeyVal (translItem tr en num i it) = itemKeyVal it := by
  unfold translItem
  split <;> rfl

/-- The translation step leaves everything but the translation fields
unchanged. -/
theorem translItem_core (tr : PyStr → PyStr) (en : Bool) (num i : Nat) (it : Item) :
    coreOf (translItem tr en num i it) = coreOf it := by
  unfold translItem
  split <;> rfl

/-- The enumerate loop preserves length. -/
theorem applyTransl_length (tr : PyStr → PyStr) (en : Bool) (num : Nat) :
    ∀ (i : Nat) (l : List Item), (applyTransl tr en num i l).length = l.length := by
  intro i l
  induction l generalizing i with
  | nil => rfl
  | cons it rest ih =>
    rw [applyTransl]
    simp [ih]

/-- Members of the loop output are translation images of members of the
input. -/
theorem applyTransl_mem (tr : PyStr → PyStr) (en : Bool) (num : Nat) :
    ∀ (i : Nat) (l : List Item) (a : Item), a ∈ applyTransl tr en num i l →
    ∃ it ∈ l, ∃ j, a = translItem tr en num j it := by
  intro i l
  induction l generalizing i with
  | nil => intro a ha; exact absurd ha (List.not_mem_nil a)
  | cons it rest ih =>
    intro a ha
    rw [applyTransl] at ha
    rcases List.mem_cons.mp ha with rfl | ha'
    · exact ⟨it, List.mem_cons_self _ _, i, rfl⟩
    · obtain ⟨it', hit', j, hj⟩ := ih (i + 1) a ha'
      exact ⟨it', List.mem_cons_of_mem _ hit', j, hj⟩

/-- The loop output at position `j` is the image of the input at `j`,
translated at running index `i + j`. -/
theorem applyTransl_get (tr : PyStr → PyStr) (en : Bool) (num : Nat) :
    ∀ (l : List Item) (i j : Nat) (hj : j < (applyTransl tr en num i l).length)
      (hj' : j < l.length),
    (applyTransl tr en num i l).get ⟨j, hj⟩ = translItem tr en num (i + j) (l.get ⟨j, hj'⟩) := by
  intro l
  induction l with
  | nil => intro i j hj hj'; exact absurd hj' (by simp)
  | cons it rest ih =>
    intro i j hj hj'
    cases j with
    | zero => rfl
    | succ j' =>
      have hj2' : j' < rest.length := Nat.lt_of_succ_lt_succ (by simpa using hj')
      have hj2 : j' < (applyTransl tr en num (i + 1) rest).length := by
        rw [applyTransl_length]
        exact hj2'
      show (translItem tr en num i it :: applyTransl tr en num (i + 1) rest).get
        ⟨j' + 1, hj⟩ = translItem tr en num (i + (j' + 1)) ((it :: rest).get ⟨j' + 1, hj'⟩)
      rw [List.get_cons_succ, List.get_cons_succ]
      rw [ih (i + 1) j' hj2 hj2']
      congr 1
      omega

/-- The loop output keeps the key sequence of its input. -/
theorem applyTransl_pairwise (tr : PyStr → PyStr) (en : Bool) (num : Nat) :
    ∀ (i : Nat) (l : List Item),
    l.Pairwise (fun a b => itemKeyVal b ≤ itemKeyVal a) →
    (applyTransl tr en num i l).Pairwise (fun a b => itemKeyVal b ≤ itemKeyVal a) := by
  intro i l
  induction l generalizing i with
  | nil => intro _; exact List.Pairwise.nil
  | cons it rest ih =>
    intro h
    rw [applyTransl]
    rcases List.pairwise_cons.mp h with ⟨hhead, htail⟩
    refine List.pairwise_cons.mpr ⟨?_, ih (i + 1) htail⟩
    intro a ha
    obtain ⟨it', hit', j, rfl⟩ := applyTransl_mem tr en num (i + 1) rest a ha
    rw [translItem_key, translItem_key]
    exact hhead it' hit'

/-- The loop output keeps the core records of its input. -/
theorem applyTransl_map_core (tr : PyStr → PyStr) (en : Bool) (num : Nat) :
    ∀ (i : Nat) (l : List Item),
    (applyTransl tr en num i l).map coreOf = l.map coreOf := by
  intro i l
  induction l generalizing i with
  | nil => rfl
  | cons it rest ih =>
    rw [applyTransl]
    simp only [List.map_cons, translItem_core, ih (i + 1)]

/-- Members of the key list are naive when every item is cleanly
naive. -/
theorem keys_naive (l : List Item) (ks : List PyDateTime)
    (hall : List.Forall₂ (fun a k => pyKeyOf a = .ok k) l ks)
    (hnall : ∀ y ∈ l, naiveParse y = true) :
    ∀ k ∈ ks, k.tz = none := by
  induction hall with
  | nil => intro k hk; exact absurd hk (List.not_mem_nil k)
  | @cons a k l' ks' hak _ ih =>
    intro k' hk'
    rcases List.mem_cons.mp hk' with rfl | hk''
    · obtain ⟨k0, hk0, htz⟩ := pyKeyOf_ok_of_naive a (hnall a (List.mem_cons_self _ _))
      rw [hak] at hk0
      cases Except.ok.inj hk0
      exact htz
    · exact ih (fun y hy => hnall y (List.mem_cons_of_mem _ hy)) k' hk''

/-- C6 (amended).  On a non-empty news batch whose timestamps all parse
to naive datetimes (or cleanly fail), `pre_process_articles` returns a
list of the same length, sorted descending by timestamp key
(unparseable sorting as `datetime.min`), carrying exactly the input
records up to the translation fields; with translation disabled every
result item has `translated_* = original`, and with it enabled exactly
the items at sorted positions below `num_items_to_translate` go through
the translation oracle while all later ones copy their originals. -/
theorem C6_pre_process_translate (items : List Item) (tr : PyStr → PyStr)
    (en : Bool) (num : Nat)
    (hne : items ≠ [])
    (hrep : ¬ (headType items = str "report"))
    (hnall : ∀ y ∈ items, naiveParse y = true) :
    (pre_process_articles items tr en num).length = items.length ∧
    (pre_process_articles items tr en num).Pairwise
      (fun a b => itemKeyVal b ≤ itemKeyVal a) ∧
    ((pre_process_articles items tr en num).map coreOf).Perm (items.map coreOf) ∧
    (en = false → ∀ a ∈ pre_process_articles items tr en num,
      a.translated_title = a.title ∧ a.translated_description = a.description) ∧
    (∀ (j : Nat) (hj : j < (pre_process_articles items tr en num).length),
      (num ≤ j →
        ((pre_process_articles items tr en num).get ⟨j, hj⟩).translated_title =
          ((pre_process_articles items tr en num).get ⟨j, hj⟩).title ∧
        ((pre_process_articles items tr en num).get ⟨j, hj⟩).translated_description =
          ((pre_process_articles items tr en num).get ⟨j, hj⟩).description) ∧
      (en = true → j < num →
        ((pre_process_articles items tr en num).get ⟨j, hj⟩).translated_title =
          tr (((pre_process_articles items tr en num).get ⟨j, hj⟩).title) ∧
        ((pre_process_articles items tr en num).get ⟨j, hj⟩).translated_description =
          tr (((pre_process_articles items tr en num).get ⟨j, hj⟩).description))) := by
  have hie : items.isEmpty = false := by
    cases items with
    | nil => exact absurd rfl hne
    | cons a l => rfl
  have hkeys : ∀ y ∈ items, ∃ k, pyKeyOf y = .ok k := by
    intro y hy
    obtain ⟨k, hk, _⟩ := pyKeyOf_ok_of_naive y (hnall y hy)
    exact ⟨k, hk⟩
  obtain ⟨ks, hmapM, hall⟩ := mapM_pyKeyOf_ok items hkeys
  have hksn : ∀ k ∈ ks, k.tz = none := keys_naive items ks hall hnall
  have hmix : (ks.any (fun t => t.tz.isSome) && ks.any (fun t => t.tz.isNone)) = false := by
    have h1 : ks.any (fun t => t.tz.isSome) = false := by
      rw [List.any_eq_false]
      intro k hk
      rw [hksn k hk]
      simp
    rw [h1, Bool.false_and]
  have h1 : pre_process_articles items tr en num =
      (if ks.any (fun t => t.tz.isSome) && ks.any (fun t => t.tz.isNone) then items
       else applyTransl tr en num 0
         (((items.zip ks).mergeSort lePairKey).map Prod.fst)) := by
    unfold pre_process_articles
    rw [if_neg (by rw [hie]; exact Bool.false_ne_true), if_neg hrep, hmapM]
  have hpre : pre_process_articles items tr en num =
      applyTransl tr en num 0 (((items.zip ks).mergeSort lePairKey).map Prod.fst) := by
    rw [h1, hmix, if_neg Bool.false_ne_true]
  have hlen : items.length = ks.length := hall.length_eq
  have hzl : (items.zip ks).length = items.length := by
    rw [List.length_zip]
    omega
  have hperm : ((items.zip ks).mergeSort lePairKey).Perm (items.zip ks) :=
    List.mergeSort_perm _ _
  have hslen : ((items.zip ks).mergeSort lePairKey).length = items.length :=
    hperm.length_eq.trans hzl
  have hfst : (items.zip ks).map Prod.fst = items :=
    List.map_fst_zip items ks (le_of_eq hlen)
  have hmemkeys : ∀ p ∈ (items.zip ks).mergeSort lePairKey, pyKeyOf p.1 = .ok p.2 := by
    intro p hp
    exact forall₂_zip_keys items ks hall p (hperm.subset hp)
  refine ⟨?_, ?_, ?_, ?_, ?_⟩
  · rw [hpre, applyTransl_length, List.length_map, hslen]
  · have hsorted : ((items.zip ks).mergeSort lePairKey).Pairwise
        (fun a b => lePairKey a b = true) := by
      refine List.sorted_mergeSort ?_ ?_ _
      · intro a b c hab hbc
        unfold lePairKey at *
        have h1 := of_decide_eq_true hab
        have h2 := of_decide_eq_true hbc
        exact decide_eq_true (le_trans h2 h1)
      · intro a b
        unfold lePairKey
        rcases le_total (cmpVal a.2) (cmpVal b.2) with h | h
        · rw [decide_eq_true h]
          simp
        · rw [decide_eq_true h]
          simp
    have hsorted2 : ((items.zip ks).mergeSort lePairKey).Pairwise
        (fun p q => itemKeyVal q.1 ≤ itemKeyVal p.1) := by
      refine hsorted.imp_of_mem ?_
      intro p q hp hq hle
      rw [itemKeyVal_of_pyKeyOf p.1 p.2 (hmemkeys p hp),
        itemKeyVal_of_pyKeyOf q.1 q.2 (hmemkeys q hq)]
      exact of_decide_eq_true hle
    have hsorted3 : ((((items.zip ks).mergeSort lePairKey)).map Prod.fst).Pairwise
        (fun a b => itemKeyVal b ≤ itemKeyVal a) :=
      List.pairwise_map.mpr hsorted2
    rw [hpre]
    exact applyTransl_pairwise tr en num 0 _ hsorted3
  · rw [hpre, applyTransl_map_core]
    have hp1 : (((items.zip ks).mergeSort lePairKey).map Prod.fst).Perm
        ((items.zip ks).map Prod.fst) := hperm.map Prod.fst
    have hp2 := hp1.map coreOf
    rw [hfst] at hp2
    exact hp2
  · intro hen a ha
    rw [hpre] at ha
    obtain ⟨it, _, j, rfl⟩ := applyTransl_mem tr en num 0 _ a ha
    subst hen
    exact ⟨rfl, rfl⟩
  · intro j hj
    have hj0 : j < (((items.zip ks).mergeSort lePairKey).map Prod.fst).length := by
      rw [List.length_map, hslen]
      rw [hpre, applyTransl_length, List.length_map, hslen] at hj
      exact hj
    have hj1 : j < (applyTransl tr en num 0
        (((items.zip ks).mergeSort lePairKey).map Prod.fst)).length := by
      rw [applyTransl_length]
      exact hj0
    have hgq : (pre_process_articles items tr en num).get? j =
        some (translItem tr en num (0 + j)
          ((((items.zip ks).mergeSort lePairKey).map Prod.fst).get ⟨j, hj0⟩)) := by
      rw [hpre, List.get?_eq_get hj1, applyTransl_get tr en num _ 0 j hj1 hj0]
    have hget : (pre_process_articles items tr en num).get ⟨j, hj⟩ =
        translItem tr en num (0 + j)
          ((((items.zip ks).mergeSort lePairKey).map Prod.fst).get ⟨j, hj0⟩) :=
      Option.some.inj ((List.get?_eq_get hj).symm.trans hgq)
    constructor
    · intro hnum
      have hlt0 : ¬ (0 + j < num) := by omega
      have hc : (en && decide (0 + j < num)) = false := by
        rw [decide_eq_false hlt0, Bool.and_false]
      have ht : translItem tr en num (0 + j)
          ((((items.zip ks).mergeSort lePairKey).map Prod.fst).get ⟨j, hj0⟩) =
          { (((items.zip ks).mergeSort lePairKey).map Prod.fst).get ⟨j, hj0⟩ with
            translated_title :=
              ((((items.zip ks).mergeSort lePairKey).map Prod.fst).get ⟨j, hj0⟩).title,
            translated_description :=
              ((((items.zip ks).mergeSort lePairKey).map Prod.fst).get ⟨j, hj0⟩).description } := by
        unfold translItem
        rw [hc]
        simp
      rw [hget, ht]
      exact ⟨rfl, rfl⟩
    · intro hen hlt
      subst hen
      have hlt0 : 0 + j < num := by omega
      have hc : (true && decide (0 + j < num)) = true := by
        rw [decide_eq_true hlt0, Bool.true_and]
      have ht : translItem tr true num (0 + j)
          ((((items.zip ks).mergeSort lePairKey).map Prod.fst).get ⟨j, hj0⟩) =
          { (((items.zip ks).mergeSort lePairKey).map Prod.fst).get ⟨j, hj0⟩ with
            translated_title :=
              tr ((((items.zip ks).mergeSort lePairKey).map Prod.fst).get ⟨j, hj0⟩).title,
            translated_description :=
              tr ((((items.zip ks).mergeSort lePairKey).map Prod.fst).get ⟨j, hj0⟩).description } := by
        unfold translItem
        rw [hc]
        simp
      rw [hget, ht]
      exact ⟨rfl, rfl⟩

/-- C6 counterexample: a disabled-translation batch containing an
aware-offset timestamp is returned unchanged (the naive/aware key
comparison raises, the handler returns the input), so a result item
keeps `translated_title = ""` ≠ `title`. -/
theorem C6_counterexample :
    pre_process_articles [c6Aware, c6Bad] id false 1 = [c6Aware, c6Bad] ∧
    c6Bad ∈ pre_process_articles [c6Aware, c6Bad] id false 1 ∧
    c6Bad.translated_title ≠ c6Bad.title := by
  have h : pre_process_articles [c6Aware, c6Bad] id false 1 = [c6Aware, c6Bad] := rfl
  refine ⟨h, ?_, by decide⟩
  rw [h]
  exact List.mem_cons_of_mem _ (List.mem_cons_self _ _)

/-- C6 witness: the amended statement at a two-item naive batch. -/
theorem C6_pre_process_translate_witness :
    (pre_process_articles [c6Old, c6New] id false 1).length =
      ([c6Old, c6New] : List Item).length ∧
    (pre_process_articles [c6Old, c6New] id false 1).Pairwise
      (fun a b => itemKeyVal b ≤ itemKeyVal a) ∧
    ((pre_process_articles [c6Old, c6New] id false 1).map coreOf).Perm
      (([c6Old, c6New] : List Item).map coreOf) := by
  have h := C6_pre_process_translate [c6Old, c6New] id false 1
    (by decide) (by decide) (by decide)
  exact ⟨h.1, h.2.1, h.2.2.1⟩

/-! ### JSON round-trip lemmas (for C8) -/

/-- Unicode scalar values avoid the surrogate range. -/
theorem charNatValid (c : Char) :
    c.toNat < 55296 ∨ (57343 < c.toNat ∧ c.toNat < 1114112) := by
  have h := c.valid
  unfold UInt32.isValidChar at h
  unfold Nat.isValidChar at h
  exact h

/-- Hex digits print/parse consistently. -/
theorem hexVal_hexDigit : ∀ n : Fin 16, hexVal (hexDigit n.val) = some n.val := by decide

/-- Hex digits print/parse consistently (Nat form). -/
theorem hexVal_hexDigit' (n : Nat) (h : n < 16) : hexVal (hexDigit n) = some n :=
  hexVal_hexDigit ⟨n, h⟩

/-- A printed 4-digit hex group parses back, leaving the tail. -/
theorem parseHex4_hex4 (n : Nat) (h : n < 65536) (rest : PyStr) :
    parseHex4 (hex4 n ++ rest) = some (n, rest) := by
  show parseHex4 (hexDigit (n / 4096 % 16) :: hexDigit (n / 256 % 16) ::
    hexDigit (n / 16 % 16) :: hexDigit (n % 16) :: rest) = some (n, rest)
  rw [parseHex4]
  rw [hexVal_hexDigit' _ (Nat.mod_lt _ (by omega)),
    hexVal_hexDigit' _ (Nat.mod_lt _ (by omega)),
    hexVal_hexDigit' _ (Nat.mod_lt _ (by omega)),
    hexVal_hexDigit' _ (Nat.mod_lt _ (by omega))]
  show some (((n / 4096 % 16 * 16 + n / 256 % 16) * 16 + n / 16 % 16) * 16 + n % 16, rest)
    = some (n, rest)
  rw [show ((n / 4096 % 16 * 16 + n / 256 % 16) * 16 + n / 16 % 16) * 16 + n % 16 = n
    from by omega]

/-- Skipping whitespace ignores a leading non-whitespace character. -/
theorem skipWs_not_ws (c : Char) (h : isJsonWs c = false) (s : PyStr) :
    skipWs (c :: s) = c :: s := by
  unfold skipWs
  rw [List.dropWhile_cons, h]
  rfl

/-- Skipping whitespace eats a leading space. -/
theorem skipWs_space (s : PyStr) : skipWs (' ' :: s) = skipWs s := by
  unfold skipWs
  rw [List.dropWhile_cons]
  rfl

/-- A printed BMP escape payload decodes to its character. -/
theorem parseUEscape_bmp (c : Char) (h : c.toNat < 65536) (tail : PyStr) :
    parseUEscape (hex4 c.toNat ++ tail) = some (c, tail) := by
  have hv := charNatValid c
  unfold parseUEscape
  rw [parseHex4_hex4 _ h]
  split
  · rename_i heq
    exact absurd heq (by simp)
  · rename_i v rest heq
    injection heq with hp
    rw [Prod.mk.injEq] at hp
    obtain ⟨h1, h2⟩ := hp
    subst h1
    subst h2
    rw [if_neg (by omega), if_neg (by omega), Char.ofNat_toNat]

/-- Decoding a surrogate-pair escape written with abstract halves. -/
theorem parseUEscape_hex4_pair (hi lo : Nat) (hhi1 : 55296 ≤ hi) (hhi2 : hi ≤ 56319)
    (hlo1 : 56320 ≤ lo) (hlo2 : lo ≤ 57343) (tail : PyStr) :
    parseUEscape (hex4 hi ++ (backslashC :: 'u' :: (hex4 lo ++ tail))) =
      some (Char.ofNat (65536 + (hi - 55296) * 1024 + (lo - 56320)), tail) := by
  unfold parseUEscape
  rw [parseHex4_hex4 _ (by omega)]
  split
  · rename_i heq
    exact absurd heq (by simp)
  · rename_i v rest heq
    injection heq with hp
    rw [Prod.mk.injEq] at hp
    obtain ⟨h1, h2⟩ := hp
    subst h1
    subst h2
    rw [if_pos ⟨hhi1, hhi2⟩]
    split
    · rename_i b1 u1 rest2 heq2
      injection heq2 with hb heq3
      injection heq3 with hu hr2
      subst hb
      subst hu
      subst hr2
      rw [if_pos ⟨rfl, rfl⟩]
      rw [parseHex4_hex4 _ (by omega)]
      split
      · rename_i w rest3 heq4
        injection heq4 with hp2
        rw [Prod.mk.injEq] at hp2
        obtain ⟨h3, h4⟩ := hp2
        subst h3
        subst h4
        rw [if_pos ⟨hlo1, hlo2⟩]
      · rename_i heq4
        exact absurd heq4 (by simp)
    · rename_i hne
      exact absurd rfl (hne backslashC 'u' _)

/-- A printed surrogate-pair escape payload decodes to its astral
character. -/
theorem parseUEscape_pair (c : Char) (h : 65536 ≤ c.toNat) (tail : PyStr) :
    parseUEscape (hex4 (55296 + (c.toNat - 65536) / 1024) ++
      (backslashC :: 'u' :: (hex4 (56320 + (c.toNat - 65536) % 1024) ++ tail))) =
    some (c, tail) := by
  have hv := charNatValid c
  have hq : (c.toNat - 65536) / 1024 ≤ 1023 := by omega
  have hr : (c.toNat - 65536) % 1024 ≤ 1023 := by omega
  rw [parseUEscape_hex4_pair _ _ (by omega) (by omega) (by omega) (by omega)]
  rw [show 65536 + (55296 + (c.toNat - 65536) / 1024 - 55296) * 1024 +
    (56320 + (c.toNat - 65536) % 1024 - 56320) = c.toNat from by omega]
  rw [Char.ofNat_toNat]

/-- The unfolding of the string-body parser on a cons cell. -/
theorem parseStrBody_succ_cons (f : Nat) (c : Char) (rest : PyStr) :
    parseStrBody (f + 1) (c :: rest) =
      (if c = quoteC then some ([], rest)
       else if c = backslashC then
         match rest with
         | [] => none
         | e :: rest' =>
           if e = quoteC ∨ e = backslashC ∨ e = '/' then
             (parseStrBody f rest').map (fun p => (e :: p.1, p.2))
           else if e = 'b' then
             (parseStrBody f rest').map (fun p => (Char.ofNat 8 :: p.1, p.2))
           else if e = 'f' then
             (parseStrBody f rest').map (fun p => (Char.ofNat 12 :: p.1, p.2))
           else if e = 'n' then
             (parseStrBody f rest').map (fun p => ('\n' :: p.1, p.2))
           else if e = 'r' then
             (parseStrBody f rest').map (fun p => ('\r' :: p.1, p.2))
           else if e = 't' then
             (parseStrBody f rest').map (fun p => ('\t' :: p.1, p.2))
           else if e = 'u' then
             match parseUEscape rest' with
             | some (ch, r) => (parseStrBody f r).map (fun p => (ch :: p.1, p.2))
             | none => none
           else none
       else if c.toNat < 32 then none
       else (parseStrBody f rest).map (fun p => (c :: p.1, p.2))) := rfl

/-- The string-body parser on a `\u` escape defers to `parseUEscape`. -/
theorem psb_u (f : Nat) (r : PyStr) :
    parseStrBody (f + 1) (backslashC :: 'u' :: r) =
      (match parseUEscape r with
       | some (ch, rr) => (parseStrBody f rr).map (fun p => (ch :: p.1, p.2))
       | none => none) := by
  rw [parseStrBody_succ_cons, if_neg (by decide), if_pos rfl]
  split
  · rename_i heq
    exact absurd heq (by simp)
  · rename_i e rest' heq
    injection heq with hh ht
    subst hh
    subst ht
    rw [if_neg (by decide), if_neg (by decide), if_neg (by decide), if_neg (by decide),
      if_neg (by decide), if_neg (by decide), if_pos rfl]

/-- One escaped character parses back to the character, consuming one
unit of fuel. -/
theorem psb_escapeChar (c : Char) (f : Nat) (tail : PyStr) :
    parseStrBody (f + 1) (escapeChar c ++ tail) =
      (parseStrBody f tail).map (fun p => (c :: p.1, p.2)) := by
  by_cases h1 : c = quoteC
  · subst h1
    rfl
  by_cases h2 : c = backslashC
  · subst h2
    rfl
  by_cases h3 : c.toNat = 8
  · have he : escapeChar c = [backslashC, 'b'] := by
      unfold escapeChar
      rw [if_neg h1, if_neg h2, if_pos h3]
    rw [he]
    show (parseStrBody f tail).map (fun p => (Char.ofNat 8 :: p.1, p.2)) = _
    rw [show Char.ofNat 8 = c from by rw [← h3, Char.ofNat_toNat]]
  by_cases h4 : c.toNat = 12
  · have he : escapeChar c = [backslashC, 'f'] := by
      unfold escapeChar
      rw [if_neg h1, if_neg h2, if_neg h3, if_pos h4]
    rw [he]
    show (parseStrBody f tail).map (fun p => (Char.ofNat 12 :: p.1, p.2)) = _
    rw [show Char.ofNat 12 = c from by rw [← h4, Char.ofNat_toNat]]
  by_cases h5 : c = '\n'
  · subst h5
    rfl
  by_cases h6 : c = '\r'
  · subst h6
    rfl
  by_cases h7 : c = '\t'
  · subst h7
    rfl
  by_cases h8 : 32 ≤ c.toNat ∧ c.toNat ≤ 126
  · have he : escapeChar c = [c] := by
      unfold escapeChar
      rw [if_neg h1, if_neg h2, if_neg h3, if_neg h4, if_neg h5, if_neg h6, if_neg h7,
        if_pos h8]
    rw [he]
    show parseStrBody (f + 1) (c :: tail) = _
    rw [parseStrBody_succ_cons, if_neg h1, if_neg h2, if_neg (by omega)]
  by_cases h9 : c.toNat < 65536
  · have he : escapeChar c = backslashC :: 'u' :: hex4 c.toNat := by
      unfold escapeChar
      rw [if_neg h1, if_neg h2, if_neg h3, if_neg h4, if_neg h5, if_neg h6, if_neg h7,
        if_neg h8, if_pos h9]
    rw [he]
    show (match parseUEscape (hex4 c.toNat ++ tail) with
      | some (ch, r) => (parseStrBody f r).map (fun p : PyStr × PyStr => (ch :: p.1, p.2))
      | none => none) = _
    rw [parseUEscape_bmp c h9]
  · have he : escapeChar c =
        (backslashC :: 'u' :: hex4 (55296 + (c.toNat - 65536) / 1024)) ++
        (backslashC :: 'u' :: hex4 (56320 + (c.toNat - 65536) % 1024)) := by
      unfold escapeChar
      rw [if_neg h1, if_neg h2, if_neg h3, if_neg h4, if_neg h5, if_neg h6, if_neg h7,
        if_neg h8, if_neg h9]
    rw [he, List.append_assoc, List.cons_append, List.cons_append, psb_u,
      List.cons_append, List.cons_append, parseUEscape_pair c (by omega)]

/-- A printed string body followed by a closing quote parses back to
the string, leaving the tail. -/
theorem parseStrBody_escape : ∀ (s : PyStr) (rest : PyStr) (fuel : Nat),
    s.length < fuel →
    parseStrBody fuel ((s.map escapeChar).flatten ++ (quoteC :: rest)) = some (s, rest) := by
  intro s
  induction s with
  | nil =>
    intro rest fuel hf
    cases fuel with
    | zero => omega
    | succ f => rfl
  | cons c cs ih =>
    intro rest fuel hf
    cases fuel with
    | zero => omega
    | succ f =>
      have hshape : (((c :: cs).map escapeChar).flatten ++ (quoteC :: rest)) =
          escapeChar c ++ ((cs.map escapeChar).flatten ++ (quoteC :: rest)) := by
        rw [List.map_cons, List.flatten_cons, List.append_assoc]
      rw [hshape, psb_escapeChar, ih rest f (by simpa using Nat.lt_of_succ_lt_succ hf)]
      rfl

/-- Digit characters are digits. -/
theorem isDigitC_digitChar (n : Nat) (h : n < 10) : isDigitC (digitChar n) = true := by
  interval_cases n <;> decide

/-- Digit characters decode to their value. -/
theorem digitVal_digitChar (n : Nat) (h : n < 10) : digitVal (digitChar n) = n := by
  interval_cases n <;> decide

/-- A decimal rendering is never empty. -/
theorem natDigits_ne_nil (n : Nat) : natDigits n ≠ [] := by
  rw [natDigits]
  split
  · simp
  · simp

/-- Every character of a decimal rendering is a digit. -/
theorem natDigits_digits (n : Nat) : ∀ c ∈ natDigits n, isDigitC c = true := by
  induction n using Nat.strong_induction_on with
  | _ n ih =>
    rw [natDigits]
    split
    · rename_i h
      intro c hc
      rw [List.mem_singleton] at hc
      subst hc
      exact isDigitC_digitChar n h
    · rename_i h
      intro c hc
      rw [List.mem_append] at hc
      rcases hc with hc | hc
      · exact ih (n / 10) (Nat.div_lt_self (by omega) (by omega)) c hc
      · rw [List.mem_singleton] at hc
        subst hc
        exact isDigitC_digitChar _ (Nat.mod_lt _ (by omega))

/-- A decimal rendering starts with `0` only for zero itself. -/
theorem natDigits_head_zero (n : Nat) :
    ∀ ds', natDigits n = '0' :: ds' → n = 0 := by
  induction n using Nat.strong_induction_on with
  | _ n ih =>
    rw [natDigits]
    split
    · rename_i h
      intro ds' hds
      injection hds with h1 _
      have h2 : digitVal (digitChar n) = n := digitVal_digitChar n h
      rw [h1] at h2
      have h0 : digitVal '0' = 0 := by decide
      omega
    · rename_i h
      intro ds' hds
      rcases hnil : natDigits (n / 10) with _ | ⟨d, ds''⟩
      · exact absurd hnil (natDigits_ne_nil _)
      · rw [hnil, List.cons_append] at hds
        injection hds with h1 _
        rw [h1] at hnil
        have := ih (n / 10) (Nat.div_lt_self (by omega) (by omega)) ds'' hnil
        omega

/-- The fold value of a decimal rendering. -/
theorem natDigits_foldl (n : Nat) : ∀ a : Nat,
    (natDigits n).foldl (fun acc c => acc * 10 + digitVal c) a =
      a * 10 ^ (natDigits n).length + n := by
  induction n using Nat.strong_induction_on with
  | _ n ih =>
    rw [natDigits]
    split
    · rename_i h
      intro a
      simp [digitVal_digitChar n h]
    · rename_i h
      intro a
      rw [List.foldl_append, ih (n / 10) (Nat.div_lt_self (by omega) (by omega)) a]
      simp only [List.foldl_cons, List.foldl_nil, List.length_append, List.length_singleton]
      rw [digitVal_digitChar _ (Nat.mod_lt _ (by omega))]
      rw [pow_succ]
      have hdm : n / 10 * 10 + n % 10 = n := by omega
      have hring : (a * 10 ^ (natDigits (n / 10)).length + n / 10) * 10 + n % 10 =
          a * (10 ^ (natDigits (n / 10)).length * 10) + (n / 10 * 10 + n % 10) := by ring
      rw [hring, hdm]

/-- `takeWhile` over an all-true prefix followed by a failing head. -/
theorem takeWhile_all_append (p : Char → Bool) : ∀ (l rest : PyStr),
    (∀ c ∈ l, p c = true) → (∀ c, rest.head? = some c → p c = false) →
    (l ++ rest).takeWhile p = l := by
  intro l
  induction l with
  | nil =>
    intro rest _ hr
    cases rest with
    | nil => rfl
    | cons c r =>
      rw [List.nil_append, List.takeWhile_cons, hr c rfl]
      rfl
  | cons a l' ihl =>
    intro rest hl hr
    rw [List.cons_append, List.takeWhile_cons, hl a (List.mem_cons_self a l')]
    rw [ihl rest (fun c hc => hl c (List.mem_cons_of_mem a hc)) hr]
    rfl

/-- Parsing the printed decimal of a natural number. -/
theorem parseNatTok_natDigits (n : Nat) (rest : PyStr)
    (hrest : ∀ c, rest.head? = some c → isDigitC c = false) :
    parseNatTok (natDigits n ++ rest) = some (n, rest) := by
  have hds : (natDigits n ++ rest).takeWhile isDigitC = natDigits n :=
    takeWhile_all_append isDigitC (natDigits n) rest (natDigits_digits n) hrest
  simp only [parseNatTok]
  rw [hds, List.drop_left]
  rcases hnd : natDigits n with _ | ⟨d, ds'⟩
  · exact absurd hnd (natDigits_ne_nil n)
  have hzero : ¬ (d = '0' ∧ ds' ≠ []) := by
    rintro ⟨h1, hne⟩
    rw [h1] at hnd
    have h0 := natDigits_head_zero n ds' hnd
    subst h0
    rw [natDigits, dif_pos (by norm_num)] at hnd
    injection hnd with _ h2
    exact hne h2.symm
  show (if d = '0' ∧ ds' ≠ [] then none
    else some ((d :: ds').foldl (fun acc c => acc * 10 + digitVal c) 0,
      rest)) = some (n, rest)
  rw [if_neg hzero, ← hnd, natDigits_foldl n 0]
  simp

/-- Parsing the printed decimal with the trailing guards. -/
theorem parseIntCore_natDigits (n : Nat) (rest : PyStr)
    (hrest : ∀ c, rest.head? = some c →
      isDigitC c = false ∧ c ≠ '.' ∧ c ≠ 'e' ∧ c ≠ 'E') :
    parseIntCore (natDigits n ++ rest) = some ((n : Int), rest) := by
  unfold parseIntCore
  rw [parseNatTok_natDigits n rest (fun c hc => (hrest c hc).1)]
  show (if rest.head? = some '.' ∨ rest.head? = some 'e' ∨ rest.head? = some 'E'
    then none else some ((n : Int), rest)) = some ((n : Int), rest)
  rw [if_neg]
  intro hor
  rcases hh : rest.head? with _ | c
  · rw [hh] at hor
    rcases hor with h | h | h <;> exact Option.noConfusion h
  · rcases hrest c hh with ⟨_, h1, h2, h3⟩
    rw [hh] at hor
    rcases hor with h | h | h
    · exact h1 (Option.some.inj h)
    · exact h2 (Option.some.inj h)
    · exact h3 (Option.some.inj h)

/-- Parsing the printed decimal of an integer. -/
theorem parseIntTok_intStr (i : Int) (rest : PyStr)
    (hrest : ∀ c, rest.head? = some c →
      isDigitC c = false ∧ c ≠ '.' ∧ c ≠ 'e' ∧ c ≠ 'E') :
    parseIntTok (intStr i ++ rest) = some (i, rest) := by
  unfold parseIntTok intStr
  by_cases hneg : i < 0
  · rw [if_pos hneg, List.cons_append]
    rw [if_pos (show ('-' :: (natDigits i.natAbs ++ rest)).head? = some '-' from rfl)]
    rw [show ('-' :: (natDigits i.natAbs ++ rest)).tail = natDigits i.natAbs ++ rest from rfl]
    rw [parseIntCore_natDigits i.natAbs rest hrest]
    show some (-((i.natAbs : Nat) : Int), rest) = some (i, rest)
    have hai : -((i.natAbs : Nat) : Int) = i := by omega
    rw [hai]
  · rw [if_neg hneg]
    have hhm : ¬ ((natDigits i.natAbs ++ rest).head? = some '-') := by
      intro hhead
      rcases hnd : natDigits i.natAbs with _ | ⟨d, ds'⟩
      · exact absurd hnd (natDigits_ne_nil _)
      · rw [hnd, List.cons_append] at hhead
        have hd : d = '-' := Option.some.inj hhead
        have hdig : isDigitC d = true :=
          natDigits_digits _ d (hnd ▸ List.mem_cons_self d ds')
        rw [hd] at hdig
        exact absurd hdig (by decide)
    rw [if_neg hhm, parseIntCore_natDigits i.natAbs rest hrest]
    have hai : ((i.natAbs : Nat) : Int) = i := by omega
    rw [hai]


/-- The colon separator written by `json.dumps`. -/
theorem str_colon : str ": " = [':', ' '] := by decide

/-- The comma separator written by `json.dumps`. -/
theorem str_comma : str ", " = [',', ' '] := by decide

/-- Skipping whitespace is blind to a leading whitespace character. -/
theorem skipWs_cons_ws (w : Char) (hw : isJsonWs w = true) (s : PyStr) :
    skipWs (w :: s) = skipWs s := by
  unfold skipWs
  rw [List.dropWhile_cons, hw]
  rfl

/-- A pair is serialised as a quote followed by the escaped key, the
closing quote, the colon separator and the serialised value. -/
theorem dumpPair_shape (k : PyStr) (v : Prim) (T : PyStr) :
    dumpPair (k, v) ++ T =
      quoteC :: ((k.map escapeChar).flatten ++
        (quoteC :: (':' :: ' ' :: (dumpPrim v ++ T)))) := by
  unfold dumpPair escStr
  rw [str_colon]
  simp only [List.cons_append, List.append_assoc, List.singleton_append, List.nil_append]

/-- A serialised pair starts with a quote. -/
theorem dumpPair_head (kv : PyStr × Prim) :
    ∃ t, dumpPair kv = quoteC :: t := by
  rcases kv with ⟨k, v⟩
  refine ⟨(k.map escapeChar).flatten ++ (quoteC :: (':' :: ' ' :: dumpPrim v)), ?_⟩
  have h := dumpPair_shape k v []
  rw [List.append_nil] at h
  rw [h, List.append_nil]

/-- The head of a serialised integer is a minus sign or a digit. -/
theorem intStr_head (i : Int) :
    ∃ d ds', intStr i = d :: ds' ∧ (d = '-' ∨ isDigitC d = true) := by
  unfold intStr
  by_cases hneg : i < 0
  · rw [if_pos hneg]
    exact ⟨'-', _, rfl, Or.inl rfl⟩
  · rw [if_neg hneg]
    rcases hnd : natDigits i.natAbs with _ | ⟨d, ds'⟩
    · exact absurd hnd (natDigits_ne_nil _)
    · exact ⟨d, ds', rfl,
        Or.inr (natDigits_digits _ d (hnd ▸ List.mem_cons_self d ds'))⟩

/-- A serialised primitive begins with a non-whitespace character. -/
theorem dumpPrim_head (v : Prim) :
    ∃ d t, dumpPrim v = d :: t ∧ isJsonWs d = false := by
  cases v with
  | pstr s =>
    exact ⟨quoteC, _, rfl, by decide⟩
  | pint i =>
    obtain ⟨d, ds', hnd, hd⟩ := intStr_head i
    refine ⟨d, ds', hnd, ?_⟩
    rcases hd with h | h
    · rw [h]; decide
    · cases hjw : isJsonWs d
      · rfl
      · exfalso
        have : d = ' ' ∨ d = '\t' ∨ d = '\n' ∨ d = '\x0d' := by
          simpa [isJsonWs, or_assoc] using hjw
        rcases this with h2 | h2 | h2 | h2 <;> rw [h2] at h <;>
          exact absurd h (by decide)

/-- Parsing the serialised form of a primitive, when the next character
is a structural delimiter. -/
theorem parsePrim_dump (fs : Nat) (v : Prim) (rest : PyStr)
    (hfs : ∀ s, v = .pstr s → s.length < fs)
    (hrest : rest.head? = some ',' ∨ rest.head? = some rbraceC) :
    parsePrim fs (dumpPrim v ++ rest) = some (v, rest) := by
  have hrest' : ∀ c, rest.head? = some c →
      isDigitC c = false ∧ c ≠ '.' ∧ c ≠ 'e' ∧ c ≠ 'E' := by
    intro c hc
    rcases hrest with h | h <;> rw [h] at hc <;>
      rw [← Option.some.inj hc] <;> decide
  cases v with
  | pstr s =>
    show parsePrim fs (escStr s ++ rest) = some (.pstr s, rest)
    unfold escStr
    rw [List.cons_append]
    unfold parsePrim
    split
    · rename_i heq
      exact absurd heq (by simp)
    · rename_i c rest0 heq
      injection heq with h1 h2
      subst h1
      subst h2
      rw [if_pos rfl]
      simp only [List.append_eq]
      rw [List.append_assoc, List.singleton_append]
      rw [parseStrBody_escape s rest fs (hfs s rfl)]
      rfl
  | pint i =>
    show parsePrim fs (intStr i ++ rest) = some (.pint i, rest)
    obtain ⟨d, ds', hnd, hd⟩ := intStr_head i
    have hdq : ¬ d = quoteC := by
      rcases hd with h | h
      · rw [h]; decide
      · intro he
        rw [he] at h
        exact absurd h (by decide)
    rw [hnd, List.cons_append]
    unfold parsePrim
    split
    · rename_i heq
      exact absurd heq (by simp)
    · rename_i c rest0 heq
      injection heq with h1 h2
      subst h1
      subst h2
      rw [if_neg hdq]
      rw [if_pos (show d = '-' ∨ isDigitC d = true from hd)]
      rw [← List.cons_append, ← hnd]
      rw [parseIntTok_intStr i rest hrest']
      rfl

/-- `parsePairs` ignores a leading whitespace character. -/
theorem parsePairs_cons_ws (fp fs : Nat) (w : Char) (hw : isJsonWs w = true) (s : PyStr) :
    parsePairs fp fs (w :: s) = parsePairs fp fs s := by
  cases fp with
  | zero => rfl
  | succ fp =>
    simp only [parsePairs]
    rw [skipWs_cons_ws w hw]

/-- Consuming one serialised pair from the head of the pair list. -/
theorem parsePairs_one (fp fs : Nat) (k : PyStr) (v : Prim) (T : PyStr)
    (hk : k.length < fs) (hv : ∀ s, v = .pstr s → s.length < fs)
    (hT : T.head? = some ',' ∨ T.head? = some rbraceC) :
    parsePairs (fp + 1) fs (dumpPair (k, v) ++ T) =
      (match skipWs T with
       | c2 :: rest4 =>
         if c2 = ',' then (parsePairs fp fs rest4).map (fun p => ((k, v) :: p.1, p.2))
         else if c2 = rbraceC then some ([(k, v)], rest4)
         else none
       | [] => none) := by
  rw [dumpPair_shape k v T]
  simp only [parsePairs]
  rw [skipWs_not_ws quoteC (by decide)]
  split
  · rename_i heq
    exact absurd heq (by simp)
  · rename_i c rest0 heq
    injection heq with h1 h2
    subst h1
    subst h2
    rw [if_pos rfl]
    rw [parseStrBody_escape k _ fs hk]
    split
    · rename_i heq2
      exact absurd heq2 (by simp)
    · rename_i k' rest1 heq2
      injection heq2 with h3
      rw [Prod.mk.injEq] at h3
      obtain ⟨h4, h5⟩ := h3
      subst h4
      subst h5
      rw [skipWs_not_ws ':' (by decide)]
      split
      · rename_i c1 rest2 heq3
        injection heq3 with h6 h7
        subst h6
        subst h7
        rw [if_pos rfl]
        rw [skipWs_space]
        obtain ⟨dp, tp, hdp, hwp⟩ := dumpPrim_head v
        rw [hdp, List.cons_append, skipWs_not_ws dp hwp, ← List.cons_append, ← hdp]
        rw [parsePrim_dump fs v T hv hT]
      · rename_i heq3
        exact absurd heq3 (by simp)

/-- Parsing the serialised pair list of a record, up to the closing
brace. -/
theorem parsePairs_dump : ∀ (r : JRec) (fp fs : Nat) (rest : PyStr),
    r ≠ [] → r.length ≤ fp →
    (∀ kv ∈ r, kv.1.length < fs ∧ ∀ s, kv.2 = .pstr s → s.length < fs) →
    parsePairs fp fs (joinSep (str ", ") (r.map dumpPair) ++ (rbraceC :: rest)) =
      some (r, rest) := by
  intro r
  induction r with
  | nil =>
    intro fp fs rest hne _ _
    exact absurd rfl hne
  | cons kv rtl ih =>
    intro fp fs rest _ hfp hfs
    rcases kv with ⟨k, v⟩
    obtain ⟨hk, hv⟩ := hfs (k, v) (List.mem_cons_self _ _)
    cases fp with
    | zero => simp at hfp
    | succ fp =>
      cases rtl with
      | nil =>
        simp only [List.map_cons, List.map_nil, joinSep]
        rw [parsePairs_one fp fs k v (rbraceC :: rest) hk hv (Or.inr rfl)]
        rw [skipWs_not_ws rbraceC (by decide)]
        split
        · rename_i c2 rest4 heq
          injection heq with h1 h2
          subst h1
          subst h2
          rw [if_neg (by decide), if_pos rfl]
        · rename_i heq
          exact absurd heq (by simp)
      | cons kv2 rtl2 =>
        simp only [List.map_cons, joinSep]
        rw [str_comma]
        simp only [List.append_assoc, List.cons_append, List.nil_append]
        rw [parsePairs_one fp fs k v
          (',' :: ' ' :: (joinSep [',', ' '] (dumpPair kv2 :: rtl2.map dumpPair) ++
            (rbraceC :: rest))) hk hv (Or.inl rfl)]
        rw [skipWs_not_ws ',' (by decide)]
        split
        · rename_i c2 rest4 heq
          injection heq with h1 h2
          subst h1
          subst h2
          rw [if_pos rfl]
          rw [parsePairs_cons_ws fp fs ' ' (by decide)]
          rw [← str_comma, ← List.map_cons]
          rw [ih fp fs rest (by simp)
            (by simp only [List.length_cons] at hfp ⊢; omega)
            (fun kv hkv => hfs kv (List.mem_cons_of_mem _ hkv))]
          rfl
        · rename_i heq
          exact absurd heq (by simp)

/-- `parseRec` ignores a leading whitespace character. -/
theorem parseRec_cons_ws (fp fs : Nat) (w : Char) (hw : isJsonWs w = true) (s : PyStr) :
    parseRec fp fs (w :: s) = parseRec fp fs s := by
  unfold parseRec
  rw [skipWs_cons_ws w hw]

/-- Parsing one serialised record, leaving the tail. -/
theorem parseRec_dump (r : JRec) (fp fs : Nat) (rest : PyStr)
    (hfp : r.length ≤ fp)
    (hfs : ∀ kv ∈ r, kv.1.length < fs ∧ ∀ s, kv.2 = .pstr s → s.length < fs) :
    parseRec fp fs (dumpRec r ++ rest) = some (r, rest) := by
  unfold dumpRec
  simp only [List.cons_append, List.append_assoc, List.singleton_append, List.nil_append]
  unfold parseRec
  rw [skipWs_not_ws lbraceC (by decide)]
  split
  · rename_i heq
    exact absurd heq (by simp)
  · rename_i c rest0 heq
    injection heq with h1 h2
    subst h1
    subst h2
    rw [if_pos rfl]
    cases r with
    | nil =>
      simp only [List.map_nil, joinSep, List.nil_append]
      rw [skipWs_not_ws rbraceC (by decide)]
      split
      · rename_i c1 rest1 heq2
        injection heq2 with h3 h4
        subst h3
        subst h4
        rw [if_pos rfl]
      · rename_i heq2
        exact absurd heq2 (by simp)
    | cons kv rtl =>
      obtain ⟨t, ht⟩ := dumpPair_head kv
      have hJ : ∃ J', joinSep (str ", ") ((kv :: rtl).map dumpPair) = dumpPair kv ++ J' := by
        rw [List.map_cons]
        cases rtl with
        | nil => exact ⟨[], by simp [joinSep]⟩
        | cons kv2 rtl2 =>
          exact ⟨str ", " ++ joinSep (str ", ") (dumpPair kv2 :: rtl2.map dumpPair),
            by simp [joinSep, List.append_assoc]⟩
      obtain ⟨J', hJ⟩ := hJ
      rw [List.map_cons] at hJ
      simp only [List.map_cons]
      rw [hJ, ht, List.cons_append, List.cons_append]
      rw [skipWs_not_ws quoteC (by decide)]
      split
      · rename_i c1 rest1 heq2
        injection heq2 with h3 h4
        subst h3
        subst h4
        rw [if_neg (by decide)]
        rw [← List.cons_append, ← List.cons_append, ← ht, ← hJ, ← List.map_cons]
        rw [parsePairs_dump (kv :: rtl) fp fs rest (by simp) hfp hfs]
      · rename_i heq2
        exact absurd heq2 (by simp)

/-- Every escape sequence is at least one character long. -/
theorem escapeChar_len (c : Char) : 1 ≤ (escapeChar c).length := by
  unfold escapeChar
  split_ifs <;> simp [hex4]

/-- The escaped body of a string is no shorter than the string. -/
theorem flatten_escape_len (s : PyStr) :
    s.length ≤ ((s.map escapeChar).flatten).length := by
  induction s with
  | nil => simp
  | cons c cs ih =>
    simp only [List.map_cons, List.flatten_cons, List.length_append, List.length_cons]
    have := escapeChar_len c
    omega

/-- A serialised string literal is longer than the string plus quotes. -/
theorem escStr_len (s : PyStr) : s.length + 2 ≤ (escStr s).length := by
  unfold escStr
  simp only [List.cons_append, List.length_cons, List.length_append, List.length_singleton]
  have := flatten_escape_len s
  omega

/-- A serialised primitive is nonempty. -/
theorem dumpPrim_len_pos (v : Prim) : 1 ≤ (dumpPrim v).length := by
  obtain ⟨d, t, hdt, _⟩ := dumpPrim_head v
  rw [hdt]
  simp

/-- The length of a serialised pair. -/
theorem dumpPair_len (k : PyStr) (v : Prim) :
    (dumpPair (k, v)).length = (escStr k).length + 2 + (dumpPrim v).length := by
  unfold dumpPair
  rw [str_colon]
  simp only [List.length_append, List.length_cons, List.length_nil, List.length_singleton]

/-- A serialised pair is nonempty. -/
theorem dumpPair_len_pos (kv : PyStr × Prim) : 1 ≤ (dumpPair kv).length := by
  rcases kv with ⟨k, v⟩
  rw [dumpPair_len]
  have := escStr_len k
  omega

/-- A serialised pair bounds its key length. -/
theorem dumpPair_len_k (k : PyStr) (v : Prim) :
    k.length + 2 ≤ (dumpPair (k, v)).length := by
  rw [dumpPair_len]
  have := escStr_len k
  omega

/-- A serialised pair bounds its string-value length. -/
theorem dumpPair_len_v (k : PyStr) (v : Prim) (s : PyStr) (h : v = .pstr s) :
    s.length + 2 ≤ (dumpPair (k, v)).length := by
  rw [dumpPair_len]
  subst h
  have h1 := escStr_len s
  have h2 := escStr_len k
  show s.length + 2 ≤ (escStr k).length + 2 + (escStr s).length
  omega

/-- Each joined element fits in the join. -/
theorem joinSep_mem_len (sep : PyStr) : ∀ (l : List PyStr) (x : PyStr), x ∈ l →
    x.length ≤ (joinSep sep l).length := by
  intro l
  induction l with
  | nil =>
    intro x hx
    simp at hx
  | cons a l' ih =>
    intro x hx
    cases l' with
    | nil =>
      rw [List.mem_singleton] at hx
      subst hx
      exact Nat.le_refl _
    | cons b l'' =>
      simp only [joinSep, List.length_append]
      rcases List.mem_cons.mp hx with h | h
      · subst h
        omega
      · have := ih x h
        omega

/-- The join of nonempty strings has at least one character each. -/
theorem joinSep_count_len (sep : PyStr) : ∀ (l : List PyStr),
    (∀ x ∈ l, 1 ≤ x.length) → l.length ≤ (joinSep sep l).length := by
  intro l
  induction l with
  | nil =>
    intro _
    simp
  | cons a l' ih =>
    intro h
    cases l' with
    | nil =>
      have := h a (List.mem_cons_self _ _)
      simpa using this
    | cons b l'' =>
      simp only [joinSep, List.length_append, List.length_cons]
      have h1 := h a (List.mem_cons_self _ _)
      have h2 := ih (fun x hx => h x (List.mem_cons_of_mem _ hx))
      simp only [List.length_cons] at h2
      omega

/-- The length of a serialised record. -/
theorem dumpRec_len (r : JRec) :
    (dumpRec r).length = (joinSep (str ", ") (r.map dumpPair)).length + 2 := by
  unfold dumpRec
  simp only [List.length_cons, List.length_append, List.length_nil, List.length_singleton]

/-- The length of the serialised record list. -/
theorem dumpRecs_len (rs : List JRec) :
    (dumpRecs rs).length = (joinSep (str ", ") (rs.map dumpRec)).length + 2 := by
  unfold dumpRecs
  simp only [List.length_cons, List.length_append, List.length_nil, List.length_singleton]

/-- All the fuel bounds used by the record-list parser hold at the
fuel `json.load` is run with. -/
theorem dumpRecs_fits (rs : List JRec) :
    rs.length ≤ (dumpRecs rs).length + 1 ∧
    ∀ r ∈ rs, r.length ≤ (dumpRecs rs).length + 1 ∧
      ∀ kv ∈ r, kv.1.length < (dumpRecs rs).length + 1 ∧
        ∀ s, kv.2 = .pstr s → s.length < (dumpRecs rs).length + 1 := by
  have hrec : ∀ r ∈ rs, (dumpRec r).length ≤ (dumpRecs rs).length := by
    intro r hr
    have h1 := joinSep_mem_len (str ", ") (rs.map dumpRec) (dumpRec r)
      (List.mem_map_of_mem dumpRec hr)
    have h2 := dumpRecs_len rs
    omega
  have hcount : rs.length ≤ (dumpRecs rs).length := by
    have h1 := joinSep_count_len (str ", ") (rs.map dumpRec) (by
      intro x hx
      rcases List.mem_map.mp hx with ⟨r, _, hr⟩
      subst hr
      rw [dumpRec_len]
      omega)
    rw [List.length_map] at h1
    have h2 := dumpRecs_len rs
    omega
  refine ⟨by omega, ?_⟩
  intro r hr
  have hrl := hrec r hr
  have hpair : ∀ kv ∈ r, (dumpPair kv).length ≤ (dumpRec r).length := by
    intro kv hkv
    have h1 := joinSep_mem_len (str ", ") (r.map dumpPair) (dumpPair kv)
      (List.mem_map_of_mem dumpPair hkv)
    have h2 := dumpRec_len r
    omega
  refine ⟨?_, ?_⟩
  · have h1 := joinSep_count_len (str ", ") (r.map dumpPair) (by
      intro x hx
      rcases List.mem_map.mp hx with ⟨kv, _, hkv⟩
      subst hkv
      exact dumpPair_len_pos kv)
    rw [List.length_map] at h1
    have h2 := dumpRec_len r
    omega
  · intro kv hkv
    rcases kv with ⟨k, v⟩
    have h1 := hpair (k, v) hkv
    refine ⟨?_, ?_⟩
    · show k.length < (dumpRecs rs).length + 1
      have := dumpPair_len_k k v
      omega
    · intro s hs
      have := dumpPair_len_v k v s hs
      omega

/-- `parseRecsTail` ignores a leading whitespace character. -/
theorem parseRecsTail_cons_ws (fr fp fs : Nat) (w : Char) (hw : isJsonWs w = true)
    (s : PyStr) :
    parseRecsTail fr fp fs (w :: s) = parseRecsTail fr fp fs s := by
  cases fr with
  | zero => rfl
  | succ fr =>
    simp only [parseRecsTail]
    rw [parseRec_cons_ws fp fs w hw]

/-- Parsing the serialised record sequence up to the closing bracket. -/
theorem parseRecsTail_dump : ∀ (rs : List JRec) (fr fp fs : Nat) (rest : PyStr),
    rs ≠ [] → rs.length ≤ fr →
    (∀ r ∈ rs, r.length ≤ fp ∧
      ∀ kv ∈ r, kv.1.length < fs ∧ ∀ s, kv.2 = .pstr s → s.length < fs) →
    parseRecsTail fr fp fs (joinSep (str ", ") (rs.map dumpRec) ++ (']' :: rest)) =
      some (rs, rest) := by
  intro rs
  induction rs with
  | nil =>
    intro fr fp fs rest hne _ _
    exact absurd rfl hne
  | cons r rtl ih =>
    intro fr fp fs rest _ hfr hf
    obtain ⟨hrp, hrs⟩ := hf r (List.mem_cons_self _ _)
    cases fr with
    | zero => simp at hfr
    | succ fr =>
      cases rtl with
      | nil =>
        simp only [List.map_cons, List.map_nil, joinSep]
        simp only [parseRecsTail]
        rw [parseRec_dump r fp fs (']' :: rest) hrp hrs]
        split
        · rename_i heq
          exact absurd heq (by simp)
        · rename_i r' rest0 heq
          injection heq with h1
          rw [Prod.mk.injEq] at h1
          obtain ⟨h2, h3⟩ := h1
          subst h2
          subst h3
          rw [skipWs_not_ws ']' (by decide)]
          split
          · rename_i c rest1 heq2
            injection heq2 with h4 h5
            subst h4
            subst h5
            rw [if_neg (by decide), if_pos rfl]
          · rename_i heq2
            exact absurd heq2 (by simp)
      | cons r2 rtl2 =>
        simp only [List.map_cons, joinSep]
        simp only [List.append_assoc]
        rw [str_comma]
        simp only [List.cons_append, List.nil_append]
        simp only [parseRecsTail]
        rw [parseRec_dump r fp fs
          (',' :: ' ' :: (joinSep [',', ' '] (dumpRec r2 :: rtl2.map dumpRec) ++
            (']' :: rest))) hrp hrs]
        split
        · rename_i heq
          exact absurd heq (by simp)
        · rename_i r' rest0 heq
          injection heq with h1
          rw [Prod.mk.injEq] at h1
          obtain ⟨h2, h3⟩ := h1
          subst h2
          subst h3
          rw [skipWs_not_ws ',' (by decide)]
          split
          · rename_i c rest1 heq2
            injection heq2 with h4 h5
            subst h4
            subst h5
            rw [if_pos rfl]
            rw [parseRecsTail_cons_ws fr fp fs ' ' (by decide)]
            rw [← str_comma, ← List.map_cons]
            rw [ih fr fp fs rest (by simp)
              (by simp only [List.length_cons] at hfr ⊢; omega)
              (fun r hr => hf r (List.mem_cons_of_mem _ hr))]
            rfl
          · rename_i heq2
            exact absurd heq2 (by simp)

/-- `json.load` inverts `json.dump` on every record list. -/
theorem parseRecs_dumpRecs (rs : List JRec) : parseRecs (dumpRecs rs) = some rs := by
  obtain ⟨hcount, hfit⟩ := dumpRecs_fits rs
  cases rs with
  | nil => rfl
  | cons r rtl =>
    have hshape : dumpRecs (r :: rtl) =
        '[' :: (joinSep (str ", ") ((r :: rtl).map dumpRec) ++ [']']) := rfl
    simp only [parseRecs]
    rw [hshape]
    rw [show ('[' :: (joinSep (str ", ") ((r :: rtl).map dumpRec) ++ [']'])).length =
      (dumpRecs (r :: rtl)).length from by rw [← hshape]]
    rw [skipWs_not_ws '[' (by decide)]
    split
    · rename_i c rest0 heq
      injection heq with h1 h2
      subst h1
      subst h2
      rw [if_pos rfl]
      obtain ⟨t, ht⟩ : ∃ t, dumpRec r = lbraceC :: t := by
        unfold dumpRec
        exact ⟨_, rfl⟩
      have hJJ : ∃ J', joinSep (str ", ") ((r :: rtl).map dumpRec) = dumpRec r ++ J' := by
        rw [List.map_cons]
        cases rtl with
        | nil => exact ⟨[], by simp [joinSep]⟩
        | cons r2 rtl2 =>
          exact ⟨str ", " ++ joinSep (str ", ") (dumpRec r2 :: rtl2.map dumpRec),
            by simp [joinSep, List.append_assoc]⟩
      obtain ⟨J', hJJ⟩ := hJJ
      rw [List.map_cons] at hJJ
      simp only [List.map_cons]
      rw [hJJ, ht, List.cons_append, List.cons_append]
      rw [skipWs_not_ws lbraceC (by decide)]
      split
      · rename_i c1 rest1 heq2
        injection heq2 with h3 h4
        subst h3
        subst h4
        rw [if_neg (by decide)]
        rw [← List.cons_append, ← List.cons_append, ← ht, ← hJJ, ← List.map_cons]
        rw [show (joinSep (str ", ") ((r :: rtl).map dumpRec) ++ [']']) =
          (joinSep (str ", ") ((r :: rtl).map dumpRec) ++ (']' :: [])) from rfl]
        rw [parseRecsTail_dump (r :: rtl) _ _ _ [] (by simp) hcount
          (fun r hr => ⟨(hfit r hr).1, (hfit r hr).2⟩)]
        split
        · rename_i rs' rest2 heq3
          injection heq3 with h5
          rw [Prod.mk.injEq] at h5
          obtain ⟨h6, h7⟩ := h5
          subst h6
          subst h7
          rw [if_pos (show skipWs ([] : PyStr) = [] from rfl)]
        · rename_i heq3
          exact absurd heq3 (by simp)
      · rename_i heq2
        exact absurd heq2 (by simp)
    · rename_i heq
      exact absurd heq (by simp)

/-- C8: saving a list of flat dict records to the cache file with
`save_articles_to_file` and reloading it with `load_articles_from_file`
reproduces the same list of records, in the same order and with the same
field values, whenever the write and the read both succeed. -/
theorem C8_save_load_roundtrip (articles : List JRec) (fs : CacheFile)
    (_hdict : ∀ r ∈ articles, (r.map Prod.fst).Nodup) :
    load_articles_from_file (save_articles_to_file articles fs) = articles := by
  unfold save_articles_to_file load_articles_from_file
  show (parseRecs (dumpRecs articles)).getD [] = articles
  rw [parseRecs_dumpRecs articles]
  rfl

/-- Witness: the round trip holds at a concrete record list exercising
escapes, non-ASCII text and a negative integer. -/
theorem C8_save_load_roundtrip_witness :
    (∀ r ∈ [c8Rec], (r.map Prod.fst).Nodup) ∧
    load_articles_from_file (save_articles_to_file [c8Rec] none) = [c8Rec] :=
  ⟨by decide, C8_save_load_roundtrip [c8Rec] none (by decide)⟩

end IranNews
